import Mathlib

/-!
Verification of the advanced-genre aggregation engine of
`src/services/advanced-genre.ts`, together with the `GET /genre` route
handler from `src/routes/advancedGenre/index.ts` and the DTO projection
of `src/dto/advancedGenre.dto.ts`.

Modelling conventions:

* JavaScript `Map` objects are modelled as association lists
  `List (String × α)` in insertion order (`Map.set` on an existing key
  updates the entry in place, keeping its position); JavaScript `Set`
  objects whose iteration order no claim depends on are modelled as
  `Finset String`.
* The module-level mutable variables `genreIdToGenre`,
  `genreSlugToGenre` and `cachedAggregatedCounts` become an explicit
  `ServiceState` value threaded through the operations.
* The Prisma client `db` becomes a `Db` value holding the
  advanced-genre table, the (simple) genre table, and the book table,
  each book carrying its directly associated advanced-genre ids and the
  author attributes inspected by the filters.  A thrown Prisma error on
  the book query is modelled by an optional injected error code
  (`Db.bookQueryError`); `calculateAggregatedCounts` then returns in
  `Except String`, `.error code` standing for an uncaught throw.
* Locale-aware name projection (`getPrimaryLocalizedText`,
  `getSecondaryLocalizedText`) is an external collaborator per the
  spec; DTOs and tree nodes are modelled without the localized
  name fields, which none of the verified claims mention.
* The development-mode on-disk snapshot file inside
  `populateAdvancedGenres` is a filesystem side channel; the model
  takes the production path, where the genres come from the
  `db.advancedGenre.findMany` query.
* JavaScript truthiness is modelled explicitly: an optional string is
  truthy iff it is present and nonempty, an optional array or tuple is
  truthy iff it is present.
-/

namespace AdvancedGenre

/-- A row of the `advancedGenre` table as the service consumes it:
`id`, `slug`, the optional flat parent pointer `parentGenre`, and the
denormalized `numberOfBooks` column. -/
structure Genre where
  id : String
  slug : String
  parentGenre : Option String
  numberOfBooks : Nat
  deriving DecidableEq, Repr

/-- A row of the book query's result shape: the book id, its direct
advanced-genre associations, and the author attributes the optional
filters inspect (`authorId`, `author.year`, the regions of
`author.locations`). -/
structure Book where
  id : String
  authorId : String
  authorYear : Int
  authorRegionIds : List String
  advancedGenres : List String
  deriving DecidableEq, Repr

/-- The optional filter parameter object of `calculateAggregatedCounts`.
Each field is independently optional, mirroring the TypeScript params
object. -/
structure GenreFilter where
  authorId : Option String
  bookIds : Option (List String)
  yearRange : Option (Int × Int)
  regionId : Option String
  deriving DecidableEq, Repr

/-- The backing store.  `genreTable` lists the row ids of the (simple)
`genre` table, which `db.genre.count()` counts.  `bookQueryError = some
code` injects a thrown error with that `error.code` into
`db.book.findMany`. -/
structure Db where
  advancedGenres : List Genre
  genreTable : List String
  books : List Book
  bookQueryError : Option String
  deriving DecidableEq, Repr

/-- The module-level mutable state of `advanced-genre.ts`:
`genreIdToGenre` / `genreSlugToGenre` (each `none` before the first
`populateAdvancedGenres`, afterwards the object's entry list in
insertion order) and the no-filter aggregation cache
`cachedAggregatedCounts`. -/
structure ServiceState where
  genreIdToGenre : Option (List Genre)
  genreSlugToGenre : Option (List Genre)
  cachedAggregatedCounts : Option (List (String × Nat))
  deriving DecidableEq, Repr

/-- JavaScript truthiness of an optional string: `undefined`, `null`
and `""` are falsy. -/
def strTruthy : Option String → Bool
  | none => false
  | some s => decide (s ≠ "")

/-- The guard `!params || (!params.authorId && !params.bookIds &&
!params.yearRange && !params.regionId)` used both for the cache read
and the cache write in `calculateAggregatedCounts`. -/
def emptyFilter : Option GenreFilter → Bool
  | none => true
  | some p =>
    !strTruthy p.authorId && !p.bookIds.isSome && !p.yearRange.isSome &&
      !strTruthy p.regionId

/-- The Prisma `where` clause built from the params object.  Each
spread `...(params.x && { ... })` contributes its condition only when
the field is truthy. -/
def matchesFilter (params : Option GenreFilter) (b : Book) : Bool :=
  match params with
  | none => true
  | some p =>
    (match p.authorId with
      | some a => if a = "" then true else decide (b.authorId = a)
      | none => true) &&
    (match p.bookIds with
      | some ids => decide (b.id ∈ ids)
      | none => true) &&
    (match p.regionId with
      | some r => if r = "" then true else decide (r ∈ b.authorRegionIds)
      | none => true) &&
    (match p.yearRange with
      | some yr => decide (yr.1 ≤ b.authorYear ∧ b.authorYear ≤ yr.2)
      | none => true)

/-- `Map.set`: update in place when the key exists, else append. -/
def jsMapSet {α : Type} (m : List (String × α)) (k : String) (v : α) :
    List (String × α) :=
  if m.any (fun p => p.1 == k) then
    m.map (fun p => if p.1 == k then (k, v) else p)
  else m ++ [(k, v)]

/-- `Map.get`. -/
def jsMapGet {α : Type} (m : List (String × α)) (k : String) : Option α :=
  (m.find? (fun p => p.1 == k)).map Prod.snd

/-- Assignment `obj[key(g)] = g` on a JavaScript object: replaces the
value of an existing key, keeping its position, else appends. -/
def objSet (key : Genre → String) (m : List Genre) (g : Genre) : List Genre :=
  if m.any (fun x => key x == key g) then
    m.map (fun x => if key x == key g then g else x)
  else m ++ [g]

/-- Building an object keyed by `key` from a row list
(`for (const genre of genres) obj[key(genre)] = genre`). -/
def buildObj (key : Genre → String) (genres : List Genre) : List Genre :=
  genres.foldl (objSet key) []

/-- `populateAdvancedGenres`: replaces both lookup objects from the
backing rows and sets `cachedAggregatedCounts = null`. -/
def populateAdvancedGenres (db : Db) (_st : ServiceState) : ServiceState :=
  { genreIdToGenre := some (buildObj (·.id) db.advancedGenres)
    genreSlugToGenre := some (buildObj (·.slug) db.advancedGenres)
    cachedAggregatedCounts := none }

/-- The lazy-init prologue `if (!genreIdToGenre) await
populateAdvancedGenres()`. -/
def ensurePopulated (db : Db) (st : ServiceState) : ServiceState :=
  if st.genreIdToGenre.isSome then st else populateAdvancedGenres db st

/-- `Object.values(genreIdToGenre ?? {})`. -/
def genreValues (st : ServiceState) : List Genre :=
  st.genreIdToGenre.getD []

/-- One `genreToBooks.get(gid).add(bid)` step, on the map viewed as a
total function defaulting to the empty set. -/
def addBookTo (m : String → Finset String) (gid bid : String) :
    String → Finset String :=
  fun x => if x = gid then insert bid (m x) else m x

/-- The `genreToBooks` map built from the direct book-genre
associations of the queried books. -/
def genreToBooks (books : List Book) : String → Finset String :=
  books.foldl
    (fun m b => b.advancedGenres.foldl (fun m2 gid => addBookTo m2 gid b.id) m)
    (fun _ => ∅)

/-- One `childrenMap.get(pid).add(cid)` step (a JavaScript `Set` add:
no duplicates, insertion order kept). -/
def addChild (m : String → List String) (pid cid : String) :
    String → List String :=
  fun x => if x = pid then (if cid ∈ m x then m x else m x ++ [cid]) else m x

/-- The direct-children map: one pass over the genres, adding each
genre with a truthy `parentGenre` to its parent's child set. -/
def childrenMap (genres : List Genre) : String → List String :=
  genres.foldl
    (fun m g =>
      match g.parentGenre with
      | some p => if p = "" then m else addChild m p g.id
      | none => m)
    (fun _ => [])

/-- `Object.keys` of the object built from `genres` keyed by id:
first-occurrence order, no duplicates. -/
def objKeys (genres : List Genre) : List String :=
  genres.foldl (fun ks g => if g.id ∈ ks then ks else ks ++ [g.id]) []

/-- The mutable state of the bottom-up aggregation loop: the
`processed` set and the `aggregatedBooks` map (a total function
defaulting to the empty set, mirroring `aggregatedBooks.get(x) || new
Set()`). -/
structure AggSt where
  processed : Finset String
  agg : String → Finset String

/-- The child-union loop of `processGenre`: folds every direct child's
aggregated book set into the current set. -/
def unionChildBooks (agg : String → Finset String) (kids : List String)
    (cur : Finset String) : Finset String :=
  kids.foldl (fun acc c => acc ∪ agg c) cur

/-- `processGenre`: post-order bottom-up aggregation with a
processed-set guard.  The source recursion is unbounded (it terminates
on acyclic parent graphs); the model adds explicit fuel, and the
callers pass enough fuel for every acyclic input. -/
def processGenre (ids : List String) (children : String → List String) :
    Nat → String → AggSt → AggSt
  | 0, _, st => st
  | fuel + 1, gid, st =>
    if gid ∈ st.processed then st
    else if gid ∉ ids then st
    else
      let st1 := (children gid).foldl
        (fun s c => processGenre ids children fuel c s) st
      let cur := unionChildBooks st1.agg (children gid) (st1.agg gid)
      { processed := insert gid st1.processed
        agg := fun x => if x = gid then cur else st1.agg x }

/-- The initial `aggregatedBooks` map: every snapshot genre id is bound
to a copy of its direct book set; any other key misses (and reads as
the empty set). -/
def aggInit (genres : List Genre) (books : List Book) : AggSt :=
  { processed := ∅
    agg := fun x =>
      if x ∈ genres.map (·.id) then genreToBooks books x else ∅ }

/-- The `aggregatedBooks` state after the `processGenre` loop over all
genres. -/
def aggFinal (genres : List Genre) (books : List Book) : AggSt :=
  genres.foldl
    (fun st g =>
      processGenre (genres.map (·.id)) (childrenMap genres)
        (genres.length + 1) g.id st)
    (aggInit genres books)

/-- The pure aggregation core of `calculateAggregatedCounts` (steps
after the book query): genre-to-books map, children map, bottom-up
fold, and the final `genreId → size` count map in `aggregatedBooks`
iteration order. -/
def aggregate (genres : List Genre) (books : List Book) :
    List (String × Nat) :=
  (objKeys genres).map (fun k => (k, ((aggFinal genres books).agg k).card))

/-- `calculateAggregatedCounts`.  Returns `.error code` when the book
query throws a non-transient error; `.ok (countsMap, newState)`
otherwise.  `new Map(cached)` copies are identity on the modelled map
value. -/
def calculateAggregatedCounts (db : Db) (params : Option GenreFilter)
    (st0 : ServiceState) :
    Except String (List (String × Nat) × ServiceState) :=
  let st := ensurePopulated db st0
  if emptyFilter params && st.cachedAggregatedCounts.isSome then
    .ok (st.cachedAggregatedCounts.getD [], st)
  else
    match db.bookQueryError with
    | some code =>
      if code == "P1001" || code == "P1000" then
        match st.cachedAggregatedCounts with
        | some m => .ok (m, st)
        | none =>
          .ok ((genreValues st).foldl (fun m g => jsMapSet m g.id 0) [], st)
      else .error code
    | none =>
      let books := db.books.filter (matchesFilter params)
      let counts := aggregate (genreValues st) books
      if emptyFilter params then
        .ok (counts, { st with cachedAggregatedCounts := some counts })
      else .ok (counts, st)

/-- `collectDescendants` of `buildDescendantMap`: returns the computed
descendant set and the updated memo map.  The memo is a total function
defaulting to the empty set (`descendantsMap` starts every genre
id to an empty set, and a missing key behaves the same through the
`size > 0` check).  Fuel replaces the source's unbounded recursion as
in `processGenre`. -/
def collectDescendants (children : String → List String) :
    Nat → String → (String → Finset String) →
      Finset String × (String → Finset String)
  | 0, _, memo => (∅, memo)
  | fuel + 1, gid, memo =>
    if (memo gid).Nonempty then (memo gid, memo)
    else
      let res := (children gid).foldl
        (fun (acc : Finset String × (String → Finset String)) c =>
          let r := collectDescendants children fuel c acc.2
          (insert c acc.1 ∪ r.1, r.2))
        (∅, memo)
      (res.1, fun x => if x = gid then res.1 else res.2 x)

/-- `buildDescendantMap`: runs `collectDescendants` for every genre and
returns the final memo map.  Its keys are exactly the snapshot's genre
ids, so a lookup for any other id misses. -/
def buildDescendantMap (genres : List Genre) : String → Finset String :=
  genres.foldl
    (fun memo g =>
      (collectDescendants (childrenMap genres) (genres.length + 1) g.id memo).2)
    (fun _ => ∅)

/-- `getGenreIdsWithDescendants`.  The returned JavaScript array is the
elements of `resultSet`, a set whose iteration order the claims treat
as insignificant; the model returns the set.  `descendantsMap.get`
misses for ids outside the snapshot (the map is keyed by snapshot ids
only). -/
def getGenreIdsWithDescendants (db : Db) (genreIds : List String)
    (st0 : ServiceState) : Finset String × ServiceState :=
  let st := ensurePopulated db st0
  if genreIds.isEmpty then (∅, st)
  else
    let genres := genreValues st
    let dmap := buildDescendantMap genres
    let ids := genres.map (·.id)
    let result := genreIds.foldl
      (fun acc gid =>
        insert gid acc ∪ (if gid ∈ ids then dmap gid else ∅)) ∅
    (result, st)

/-- The DTO of `src/dto/advancedGenre.dto.ts`, without the localized
`name` / `secondaryName` fields produced by the external localization
collaborator. -/
structure GenreDto where
  id : String
  slug : String
  numberOfBooks : Nat
  deriving DecidableEq, Repr

/-- `makeGenreDto` (modulo the external localized name fields). -/
def makeGenreDto (g : Genre) : GenreDto :=
  { id := g.id, slug := g.slug, numberOfBooks := g.numberOfBooks }

/-- `aggregateChildGenresToParents`: aggregate with the given filter,
attach counts, drop zero-count genres when a params object was passed,
sort descending by count (stably, as JavaScript `Array.sort` is), and
project to DTOs. -/
def aggregateChildGenresToParents (db : Db) (params : Option GenreFilter)
    (st0 : ServiceState) :
    Except String (List GenreDto × ServiceState) := do
  let st := ensurePopulated db st0
  let (counts, st1) ← calculateAggregatedCounts db params st
  let genres := genreValues st1
  let withCounts := genres.map
    (fun g => { g with numberOfBooks := (jsMapGet counts g.id).getD 0 })
  let filtered := withCounts.filter
    (fun g => params.isNone || decide (0 < (jsMapGet counts g.id).getD 0))
  let sorted := filtered.mergeSort
    (fun a b => (jsMapGet counts b.id).getD 0 ≤ (jsMapGet counts a.id).getD 0)
  return (sorted.map makeGenreDto, st1)

/-- `getAllAdvancedGenres` simply delegates. -/
def getAllAdvancedGenres (db : Db) (params : Option GenreFilter)
    (st : ServiceState) : Except String (List GenreDto × ServiceState) :=
  aggregateChildGenresToParents db params st

/-- The validated query of the `GET /genre` route. -/
structure RouteQuery where
  bookIds : Option (List String)
  yearRange : Option (Int × Int)
  authorId : Option String
  regionId : Option String
  deriving DecidableEq, Repr

/-- The `GET /genre` route handler: it always passes a params object
`{ bookIds, yearRange, authorId, regionId }` to
`getAllAdvancedGenres`, even when every query parameter is absent. -/
def routeGetGenres (db : Db) (q : RouteQuery) (st : ServiceState) :
    Except String (List GenreDto × ServiceState) :=
  getAllAdvancedGenres db
    (some { authorId := q.authorId, bookIds := q.bookIds,
            yearRange := q.yearRange, regionId := q.regionId }) st

/-- `getAdvancedGenreCount`: size of the populated id map, else
`db.genre.count()` — a count of the (simple) `genre` table. -/
def getAdvancedGenreCount (db : Db) (st : ServiceState) : Nat :=
  match st.genreIdToGenre with
  | some entries => entries.length
  | none => db.genreTable.length

/-- A node of the hierarchy forest, without the localized
`primaryName` / `secondaryName` fields produced by the external
localization collaborator. -/
structure TreeNode where
  id : String
  slug : String
  numberOfBooks : Nat
  deriving DecidableEq, Repr

/-- The object graph `getAdvancedGenresHierarchy` returns: the
`idToNode` map, the `roots` array, and each node's `children` array
(both in push order, holding node ids; the JavaScript arrays hold the
node objects themselves, recoverable through `nodes`). -/
structure Forest where
  nodes : List (String × TreeNode)
  roots : List String
  childLists : String → List String

/-- One step of the second assembly pass of
`getAdvancedGenresHierarchy`: push the row as a root when its parent
pointer is falsy or misses in `idToNode`, else push it onto its
parent's children array. -/
def linkStep (nodes : List (String × TreeNode))
    (acc : List String × (String → List String)) (g : Genre) :
    List String × (String → List String) :=
  match g.parentGenre with
  | none => (acc.1 ++ [g.id], acc.2)
  | some p =>
    if p = "" then (acc.1 ++ [g.id], acc.2)
    else if (jsMapGet nodes p).isSome then
      (acc.1, fun x => if x = p then acc.2 x ++ [g.id] else acc.2 x)
    else (acc.1 ++ [g.id], acc.2)

/-- `getAdvancedGenresHierarchy`: no-filter aggregation for the
counts, then a fresh `db.advancedGenre.findMany` for the rows, then
the two assembly passes. -/
def getAdvancedGenresHierarchy (db : Db) (st0 : ServiceState) :
    Except String (Forest × ServiceState) := do
  let st := ensurePopulated db st0
  let (counts, st1) ← calculateAggregatedCounts db none st
  let rows := db.advancedGenres
  let idToNode := rows.foldl
    (fun m g =>
      jsMapSet m g.id
        { id := g.id, slug := g.slug,
          numberOfBooks := (jsMapGet counts g.id).getD 0 })
    []
  let links := rows.foldl (linkStep idToNode) ([], fun _ => [])
  return ({ nodes := idToNode, roots := links.1, childLists := links.2 }, st1)

/-- `getAdvancedGenreById`: lazy populate, object lookup, fold in the
no-filter aggregated count, project to DTO. -/
def getAdvancedGenreById (db : Db) (id : String) (st0 : ServiceState) :
    Except String (Option GenreDto × ServiceState) := do
  let st := ensurePopulated db st0
  match (st.genreIdToGenre.getD []).find? (fun g => g.id == id) with
  | none => return (none, st)
  | some genre =>
    let (counts, st1) ← calculateAggregatedCounts db none st
    return (some (makeGenreDto
      { genre with numberOfBooks := (jsMapGet counts id).getD 0 }), st1)

/-- `getAdvancedGenreBySlug`: as `getAdvancedGenreById` through the
slug map (the count lookup uses the found genre's id). -/
def getAdvancedGenreBySlug (db : Db) (slug : String) (st0 : ServiceState) :
    Except String (Option GenreDto × ServiceState) := do
  let st := ensurePopulated db st0
  match (st.genreSlugToGenre.getD []).find? (fun g => g.slug == slug) with
  | none => return (none, st)
  | some genre =>
    let (counts, st1) ← calculateAggregatedCounts db none st
    return (some (makeGenreDto
      { genre with numberOfBooks := (jsMapGet counts genre.id).getD 0 }), st1)

/-- One edge of the genre hierarchy: `c` is a direct child of `p`,
where `p` is a genre of the snapshot (a dangling `parentGenre`
reference is not an edge — the child is a root, per the spec). -/
def childStep (genres : List Genre) (p c : String) : Prop :=
  p ∈ genres.map (·.id) ∧ c ∈ childrenMap genres p

/-- `d` is a direct or transitive descendant of `g`. -/
def Descendant (genres : List Genre) (g d : String) : Prop :=
  Relation.TransGen (childStep genres) g d

/-! ### Association-list and key-set lemmas -/

theorem jsMapGet_cons {α : Type} (k' : String) (v : α) (m : List (String × α))
    (k : String) :
    jsMapGet ((k', v) :: m) k = if k' = k then some v else jsMapGet m k := by
  by_cases h : k' = k <;> simp [jsMapGet, List.find?_cons, h]

theorem jsMapGet_eq_none {α : Type} (m : List (String × α)) (k : String) :
    jsMapGet m k = none ↔ k ∉ m.map Prod.fst := by
  simp only [jsMapGet, Option.map_eq_none', List.find?_eq_none, List.mem_map]
  constructor
  · rintro h ⟨p, hp, rfl⟩
    exact h p hp (by simp)
  · intro h p hp hk
    exact h ⟨p, hp, by simpa using hk⟩

theorem jsMapGet_isSome {α : Type} (m : List (String × α)) (k : String) :
    (jsMapGet m k).isSome = true ↔ k ∈ m.map Prod.fst := by
  rcases h : jsMapGet m k with _ | v
  · simpa using (jsMapGet_eq_none m k).mp h
  · simp only [Option.isSome_some, true_iff]
    by_contra hk
    rw [(jsMapGet_eq_none m k).mpr hk] at h
    exact Option.noConfusion h

theorem jsMapSet_keys {α : Type} (m : List (String × α)) (k : String) (v : α) :
    (jsMapSet m k v).map Prod.fst =
      if k ∈ m.map Prod.fst then m.map Prod.fst else m.map Prod.fst ++ [k] := by
  have hany : (m.any fun p => p.1 == k) = true ↔ k ∈ m.map Prod.fst := by
    simp only [List.any_eq_true, beq_iff_eq, List.mem_map]
  by_cases h : k ∈ m.map Prod.fst
  · simp only [jsMapSet, hany.mpr h, if_true, h, List.map_map]
    apply List.map_congr_left
    intro p _
    by_cases hp : p.1 = k <;> simp [hp]
  · have : (m.any fun p => p.1 == k) = false := by
      rw [Bool.eq_false_iff]; intro hc; exact h (hany.mp hc)
    simp [jsMapSet, this, h]

theorem foldl_jsMapSet_keys {α : Type} (rows : List Genre) (v : Genre → α)
    (acc : List (String × α)) :
    (rows.foldl (fun m g => jsMapSet m g.id (v g)) acc).map Prod.fst =
      rows.foldl (fun ks g => if g.id ∈ ks then ks else ks ++ [g.id])
        (acc.map Prod.fst) := by
  induction rows generalizing acc with
  | nil => rfl
  | cons g rest ih =>
    simp only [List.foldl_cons]
    rw [ih, jsMapSet_keys]

theorem mem_objKeys_aux (rows : List Genre) (acc : List String) (k : String) :
    k ∈ rows.foldl (fun ks g => if g.id ∈ ks then ks else ks ++ [g.id]) acc ↔
      k ∈ acc ∨ k ∈ rows.map (·.id) := by
  induction rows generalizing acc with
  | nil => simp
  | cons g rest ih =>
    simp only [List.foldl_cons, List.map_cons, List.mem_cons]
    rw [ih]
    by_cases h : g.id ∈ acc
    · simp only [h, if_true]
      constructor
      · rintro (ha | hr)
        · exact Or.inl ha
        · exact Or.inr (Or.inr hr)
      · rintro (ha | rfl | hr)
        · exact Or.inl ha
        · exact Or.inl h
        · exact Or.inr hr
    · simp only [h, if_false, List.mem_append, List.mem_singleton]
      tauto

theorem mem_objKeys (rows : List Genre) (k : String) :
    k ∈ objKeys rows ↔ k ∈ rows.map (·.id) := by
  rw [objKeys, mem_objKeys_aux]
  simp

theorem objKeys_eq_map_aux (rows : List Genre) (acc : List String)
    (hfresh : ∀ g ∈ rows, g.id ∉ acc)
    (hnd : (rows.map (·.id)).Nodup) :
    rows.foldl (fun ks g => if g.id ∈ ks then ks else ks ++ [g.id]) acc =
      acc ++ rows.map (·.id) := by
  induction rows generalizing acc with
  | nil => simp
  | cons g rest ih =>
    simp only [List.map_cons, List.nodup_cons, List.mem_map] at hnd
    have hna : g.id ∉ acc := hfresh g (List.mem_cons_self g rest)
    simp only [List.foldl_cons, hna, if_false]
    rw [ih (acc ++ [g.id])]
    · simp
    · intro g' hg'
      simp only [List.mem_append, List.mem_singleton]
      rintro (h | h)
      · exact hfresh g' (List.mem_cons_of_mem _ hg') h
      · exact hnd.1 ⟨g', hg', h⟩
    · exact hnd.2

theorem objKeys_eq_map (rows : List Genre) (hnd : (rows.map (·.id)).Nodup) :
    objKeys rows = rows.map (·.id) := by
  rw [objKeys, objKeys_eq_map_aux rows [] (by simp) hnd]
  simp

theorem jsMapGet_map_of_mem {α : Type} (f : String → α) (l : List String)
    (k : String) (hk : k ∈ l) :
    jsMapGet (l.map fun k' => (k', f k')) k = some (f k) := by
  induction l with
  | nil => cases hk
  | cons a rest ih =>
    rw [List.map_cons, jsMapGet_cons]
    rcases List.mem_cons.mp hk with rfl | hk'
    · simp
    · by_cases h : a = k
      · subst h; simp
      · simp only [h, if_false]
        exact ih hk'

/-! ### Direct-association and children-map characterizations -/

theorem addBookTo_mem (m : String → Finset String) (gid bid x b : String) :
    b ∈ addBookTo m gid bid x ↔ (x = gid ∧ b = bid) ∨ b ∈ m x := by
  by_cases h : x = gid <;> simp [addBookTo, h]

theorem foldl_addBookTo_mem (gl : List String) (bid : String)
    (m : String → Finset String) (x b : String) :
    b ∈ (gl.foldl (fun m2 gid => addBookTo m2 gid bid) m) x ↔
      (x ∈ gl ∧ b = bid) ∨ b ∈ m x := by
  induction gl generalizing m with
  | nil => simp
  | cons gid rest ih =>
    simp only [List.foldl_cons, ih, addBookTo_mem, List.mem_cons]
    tauto

theorem genreToBooks_mem_aux (books : List Book) (m : String → Finset String)
    (x b : String) :
    b ∈ (books.foldl
        (fun m bk => bk.advancedGenres.foldl
          (fun m2 gid => addBookTo m2 gid bk.id) m) m) x ↔
      (∃ bk ∈ books, x ∈ bk.advancedGenres ∧ b = bk.id) ∨ b ∈ m x := by
  induction books generalizing m with
  | nil => simp
  | cons bk rest ih =>
    simp only [List.foldl_cons, ih, foldl_addBookTo_mem, List.mem_cons]
    constructor
    · rintro (⟨bk', hbk', hx, rfl⟩ | (⟨hx, rfl⟩ | hm))
      · exact Or.inl ⟨bk', Or.inr hbk', hx, rfl⟩
      · exact Or.inl ⟨bk, Or.inl rfl, hx, rfl⟩
      · exact Or.inr hm
    · rintro (⟨bk', hbk' | hbk', hx, rfl⟩ | hm)
      · exact Or.inr (Or.inl ⟨by rw [hbk'] at hx; exact hx, by rw [hbk']⟩)
      · exact Or.inl ⟨bk', hbk', hx, rfl⟩
      · exact Or.inr (Or.inr hm)

/-- Membership in the direct genre-to-books map: `b` is the id of some
queried book directly tagged with genre `x`. -/
theorem genreToBooks_mem (books : List Book) (x b : String) :
    b ∈ genreToBooks books x ↔
      ∃ bk ∈ books, x ∈ bk.advancedGenres ∧ b = bk.id := by
  rw [genreToBooks, genreToBooks_mem_aux]
  simp

theorem addChild_mem (m : String → List String) (pid cid x c : String) :
    c ∈ addChild m pid cid x ↔ (x = pid ∧ c = cid) ∨ c ∈ m x := by
  by_cases h : x = pid
  · by_cases hm : cid ∈ m x
    · rw [addChild, if_pos h, if_pos hm]
      constructor
      · exact Or.inr
      · rintro (⟨_, rfl⟩ | hc)
        · exact hm
        · exact hc
    · rw [addChild, if_pos h, if_neg hm]
      simp only [List.mem_append, List.mem_singleton, h, true_and]
      tauto
  · rw [addChild, if_neg h]
    simp [h]

theorem childrenMap_mem_aux (genres : List Genre) (m : String → List String)
    (p c : String) :
    c ∈ (genres.foldl
        (fun m g =>
          match g.parentGenre with
          | some pp => if pp = "" then m else addChild m pp g.id
          | none => m) m) p ↔
      (∃ g ∈ genres, g.id = c ∧ g.parentGenre = some p ∧ p ≠ "") ∨ c ∈ m p := by
  induction genres generalizing m with
  | nil => simp
  | cons g rest ih =>
    simp only [List.foldl_cons, ih, List.mem_cons]
    rcases hg : g.parentGenre with _ | pp
    · constructor
      · rintro (⟨g', hg', hc, hp, hne⟩ | hm)
        · exact Or.inl ⟨g', Or.inr hg', hc, hp, hne⟩
        · exact Or.inr hm
      · rintro (⟨g', hg' | hg', hc, hp, hne⟩ | hm)
        · rw [hg'] at hp; rw [hg] at hp; cases hp
        · exact Or.inl ⟨g', hg', hc, hp, hne⟩
        · exact Or.inr hm
    · by_cases hpp : pp = ""
      · subst hpp
        simp only [if_pos rfl]
        constructor
        · rintro (⟨g', hg', hc, hp, hne⟩ | hm)
          · exact Or.inl ⟨g', Or.inr hg', hc, hp, hne⟩
          · exact Or.inr hm
        · rintro (⟨g', hg' | hg', hc, hp, hne⟩ | hm)
          · rw [hg'] at hp; rw [hg] at hp
            rw [Option.some_inj] at hp
            exact absurd hp.symm hne
          · exact Or.inl ⟨g', hg', hc, hp, hne⟩
          · exact Or.inr hm
      · simp only [if_neg hpp, addChild_mem]
        constructor
        · rintro (⟨g', hg', hc, hp, hne⟩ | ⟨rfl, rfl⟩ | hm)
          · exact Or.inl ⟨g', Or.inr hg', hc, hp, hne⟩
          · exact Or.inl ⟨g, Or.inl rfl, rfl, hg, hpp⟩
          · exact Or.inr hm
        · rintro (⟨g', hg' | hg', hc, hp, hne⟩ | hm)
          · rw [hg'] at hp hc; rw [hg] at hp
            rw [Option.some_inj] at hp
            exact Or.inr (Or.inl ⟨hp.symm, hc.symm⟩)
          · exact Or.inl ⟨g', hg', hc, hp, hne⟩
          · exact Or.inr (Or.inr hm)

/-- Membership in the children map: `c` is a direct child of `p` iff
some genre row has id `c` and a truthy `parentGenre` equal to `p`. -/
theorem childrenMap_mem (genres : List Genre) (p c : String) :
    c ∈ childrenMap genres p ↔
      ∃ g ∈ genres, g.id = c ∧ g.parentGenre = some p ∧ p ≠ "" := by
  rw [childrenMap, childrenMap_mem_aux]
  simp

theorem childrenMap_mem_ids (genres : List Genre) (p c : String)
    (h : c ∈ childrenMap genres p) : c ∈ genres.map (·.id) := by
  rcases (childrenMap_mem genres p c).mp h with ⟨g, hg, rfl, _, _⟩
  exact List.mem_map.mpr ⟨g, hg, rfl⟩

/-! ### Descendant-relation lemmas -/

theorem descendant_mem_ids {genres : List Genre} {g d : String}
    (h : Descendant genres g d) : d ∈ genres.map (·.id) := by
  induction h with
  | single h' => exact childrenMap_mem_ids _ _ _ h'.2
  | tail _ h' _ => exact childrenMap_mem_ids _ _ _ h'.2

theorem descendant_rank_lt {genres : List Genre} {rank : String → Nat}
    (hrank : ∀ p c, childStep genres p c → rank c < rank p)
    {g d : String} (h : Descendant genres g d) : rank d < rank g := by
  induction h with
  | single h' => exact hrank _ _ h'
  | tail _ h' ih => exact lt_trans (hrank _ _ h') ih

theorem transGen_cases_head {α : Type} {r : α → α → Prop} {a b : α}
    (h : Relation.TransGen r a b) :
    r a b ∨ ∃ c, r a c ∧ Relation.TransGen r c b := by
  rcases Relation.TransGen.head'_iff.mp h with ⟨c, hac, hcb⟩
  rcases Relation.reflTransGen_iff_eq_or_transGen.mp hcb with rfl | ht
  · exact Or.inl hac
  · exact Or.inr ⟨c, hac, ht⟩

/-- Head decomposition of the descendant relation at a genre of the
snapshot. -/
theorem descendant_iff_child {genres : List Genre} {g : String}
    (hg : g ∈ genres.map (·.id)) (d : String) :
    Descendant genres g d ↔
      ∃ c ∈ childrenMap genres g, c = d ∨ Descendant genres c d := by
  constructor
  · intro h
    rcases transGen_cases_head h with h' | ⟨c, h', hcd⟩
    · exact ⟨d, h'.2, Or.inl rfl⟩
    · exact ⟨c, h'.2, Or.inr hcd⟩
  · rintro ⟨c, hc, rfl | hcd⟩
    · exact Relation.TransGen.single ⟨hg, hc⟩
    · exact Relation.TransGen.head ⟨hg, hc⟩ hcd

/-- Any rank function witnessing acyclicity can be replaced by one
bounded by the number of genres (needed to discharge the fuel). -/
theorem exists_bounded_rank (genres : List Genre) (rank : String → Nat)
    (hrank : ∀ p c, childStep genres p c → rank c < rank p) :
    ∃ r : String → Nat, (∀ p c, childStep genres p c → r c < r p) ∧
      ∀ x, r x < genres.length + 1 := by
  classical
  set ids := genres.map (·.id) with hids
  have hfin : ∀ x : String, {y | Descendant genres x y}.Finite := by
    intro x
    apply Set.Finite.subset (List.finite_toSet ids)
    intro y hy
    exact descendant_mem_ids hy
  refine ⟨fun x => {y | Descendant genres x y}.ncard, ?_, ?_⟩
  · intro p c hpc
    have hsub : {y | Descendant genres c y} ⊂ {y | Descendant genres p y} := by
      constructor
      · intro y hy
        exact Relation.TransGen.head hpc hy
      · intro hsup
        have hc : c ∈ {y | Descendant genres p y} :=
          Relation.TransGen.single hpc
        have : Descendant genres c c := hsup hc
        exact absurd (descendant_rank_lt hrank this) (lt_irrefl _)
    exact Set.ncard_lt_ncard hsub (hfin p)
  · intro x
    show {y | Descendant genres x y}.ncard < genres.length + 1
    have h1 : {y | Descendant genres x y}.ncard ≤ (↑ids.toFinset : Set String).ncard := by
      apply Set.ncard_le_ncard
      · intro y hy
        simp only [Set.mem_setOf_eq] at hy
        simp only [Finset.coe_sort_coe, Set.mem_setOf_eq, Finset.mem_coe,
          List.mem_toFinset]
        exact descendant_mem_ids hy
      · exact ids.toFinset.finite_toSet
    have h2 : (↑ids.toFinset : Set String).ncard = ids.toFinset.card :=
      Set.ncard_coe_Finset _
    have h3 : ids.toFinset.card ≤ ids.length := ids.toFinset_card_le
    have h4 : ids.length = genres.length := by simp [hids]
    omega

/-! ### Correctness of the bottom-up aggregation -/

/-- The intended content of a genre's aggregated book set: a direct
book of the genre itself or of one of its descendants. -/
def SpecMem (genres : List Genre) (books : List Book) (g b : String) : Prop :=
  b ∈ genreToBooks books g ∨
    ∃ d, Descendant genres g d ∧ b ∈ genreToBooks books d

/-- Invariant of the aggregation loop: processed genres hold their
final aggregated set, unprocessed ids still hold their initial direct
set. -/
def AggInv (genres : List Genre) (books : List Book) (st : AggSt) : Prop :=
  (∀ p ∈ st.processed, p ∈ genres.map (·.id) ∧
    ∀ b, (b ∈ st.agg p ↔ SpecMem genres books p b)) ∧
  (∀ q, q ∉ st.processed → st.agg q = (aggInit genres books).agg q)

theorem unionChildBooks_mem (agg : String → Finset String)
    (kids : List String) (cur : Finset String) (b : String) :
    b ∈ unionChildBooks agg kids cur ↔ b ∈ cur ∨ ∃ c ∈ kids, b ∈ agg c := by
  induction kids generalizing cur with
  | nil => simp [unionChildBooks]
  | cons c cs ih =>
    simp only [unionChildBooks, List.foldl_cons] at *
    rw [ih]
    simp only [Finset.mem_union, List.mem_cons]
    constructor
    · rintro ((hb | hb) | ⟨c', hc', hb⟩)
      · exact Or.inl hb
      · exact Or.inr ⟨c, Or.inl rfl, hb⟩
      · exact Or.inr ⟨c', Or.inr hc', hb⟩
    · rintro (hb | ⟨c', rfl | hc', hb⟩)
      · exact Or.inl (Or.inl hb)
      · exact Or.inl (Or.inr hb)
      · exact Or.inr ⟨c', hc', hb⟩

theorem processGenre_preserves (genres : List Genre) (books : List Book)
    (rank : String → Nat)
    (hrank : ∀ p c, childStep genres p c → rank c < rank p)
    (fuel : Nat) :
    ∀ gid st, AggInv genres books st → rank gid < fuel →
      AggInv genres books
        (processGenre (genres.map (·.id)) (childrenMap genres) fuel gid st) ∧
      st.processed ⊆
        (processGenre (genres.map (·.id)) (childrenMap genres) fuel gid
          st).processed ∧
      (∀ x ∈ (processGenre (genres.map (·.id)) (childrenMap genres) fuel gid
          st).processed,
        x ∈ st.processed ∨ x = gid ∨ Descendant genres gid x) ∧
      (gid ∈ genres.map (·.id) →
        gid ∈ (processGenre (genres.map (·.id)) (childrenMap genres) fuel gid
          st).processed) := by
  induction fuel with
  | zero =>
    intro gid st _ hlt
    exact absurd hlt (Nat.not_lt_zero _)
  | succ fuel ih =>
    intro gid st hinv hlt
    by_cases hp : gid ∈ st.processed
    · rw [processGenre, if_pos hp]
      exact ⟨hinv, Finset.Subset.refl _, fun x hx => Or.inl hx, fun _ => hp⟩
    · by_cases hid : gid ∈ genres.map (·.id)
      · have hnn : ¬gid ∉ genres.map (·.id) := not_not_intro hid
        rw [processGenre, if_neg hp, if_neg hnn]
        have Hfold : ∀ (l : List String), (∀ c ∈ l, rank c < fuel) →
            ∀ s, AggInv genres books s →
              AggInv genres books
                (l.foldl (fun s c =>
                  processGenre (genres.map (·.id)) (childrenMap genres) fuel c
                    s) s) ∧
              s.processed ⊆ (l.foldl (fun s c =>
                processGenre (genres.map (·.id)) (childrenMap genres) fuel c
                  s) s).processed ∧
              (∀ x ∈ (l.foldl (fun s c =>
                  processGenre (genres.map (·.id)) (childrenMap genres) fuel c
                    s) s).processed,
                x ∈ s.processed ∨ ∃ c ∈ l, x = c ∨ Descendant genres c x) ∧
              (∀ c ∈ l, c ∈ genres.map (·.id) →
                c ∈ (l.foldl (fun s c =>
                  processGenre (genres.map (·.id)) (childrenMap genres) fuel c
                    s) s).processed) := by
          intro l
          induction l with
          | nil =>
            intro _ s hs
            exact ⟨hs, Finset.Subset.refl _, fun x hx => Or.inl hx,
              by simp⟩
          | cons c cs ihl =>
            intro hlt' s hs
            simp only [List.foldl_cons]
            obtain ⟨h1, h2, h3, h4⟩ :=
              ih c s hs (hlt' c (List.mem_cons_self c cs))
            obtain ⟨g1, g2, g3, g4⟩ :=
              ihl (fun c' hc' => hlt' c' (List.mem_cons_of_mem _ hc')) _ h1
            refine ⟨g1, Finset.Subset.trans h2 g2, ?_, ?_⟩
            · intro x hx
              rcases g3 x hx with hx1 | ⟨c', hc', hcase⟩
              · rcases h3 x hx1 with hx2 | hcase
                · exact Or.inl hx2
                · exact Or.inr ⟨c, List.mem_cons_self c cs, hcase⟩
              · exact Or.inr ⟨c', List.mem_cons_of_mem _ hc', hcase⟩
            · intro c' hc' hcid
              rcases List.mem_cons.mp hc' with rfl | hc''
              · exact g2 (h4 hcid)
              · exact g4 c' hc'' hcid
        have hkidslt : ∀ c ∈ childrenMap genres gid, rank c < fuel := by
          intro c hc
          have h1 := hrank gid c ⟨hid, hc⟩
          omega
        obtain ⟨hinv1, hmono1, hreach1, hproc1⟩ :=
          Hfold (childrenMap genres gid) hkidslt st hinv
        simp only []
        set st1 := (childrenMap genres gid).foldl
          (fun s c =>
            processGenre (genres.map (·.id)) (childrenMap genres) fuel c s) st
          with hst1
        have hg1 : gid ∉ st1.processed := by
          intro h
          rcases hreach1 gid h with h' | ⟨c, hc, rfl | hd⟩
          · exact hp h'
          · exact absurd (hrank gid gid ⟨hid, hc⟩) (lt_irrefl _)
          · have h1 := descendant_rank_lt hrank hd
            have h2 := hrank gid c ⟨hid, hc⟩
            omega
        have haggid : st1.agg gid = genreToBooks books gid := by
          rw [hinv1.2 gid hg1]
          show (if gid ∈ genres.map (·.id) then genreToBooks books gid
            else ∅) = genreToBooks books gid
          rw [if_pos hid]
        have hkids_spec : ∀ c ∈ childrenMap genres gid,
            ∀ b, b ∈ st1.agg c ↔ SpecMem genres books c b := by
          intro c hc
          exact (hinv1.1 c (hproc1 c hc (childrenMap_mem_ids _ _ _ hc))).2
        have hcur : ∀ b,
            b ∈ unionChildBooks st1.agg (childrenMap genres gid)
              (st1.agg gid) ↔ SpecMem genres books gid b := by
          intro b
          rw [unionChildBooks_mem, haggid]
          constructor
          · rintro (hb | ⟨c, hc, hb⟩)
            · exact Or.inl hb
            · rcases (hkids_spec c hc b).mp hb with hb' | ⟨d, hd, hb'⟩
              · exact Or.inr ⟨c, Relation.TransGen.single ⟨hid, hc⟩, hb'⟩
              · exact Or.inr ⟨d, Relation.TransGen.head ⟨hid, hc⟩ hd, hb'⟩
          · rintro (hb | ⟨d, hd, hb⟩)
            · exact Or.inl hb
            · rcases (descendant_iff_child hid d).mp hd with
                ⟨c, hc, rfl | hcd⟩
              · exact Or.inr ⟨c, hc, (hkids_spec c hc b).mpr (Or.inl hb)⟩
              · exact Or.inr
                  ⟨c, hc, (hkids_spec c hc b).mpr (Or.inr ⟨d, hcd, hb⟩)⟩
        refine ⟨⟨?_, ?_⟩, ?_, ?_, ?_⟩
        · intro p hp'
          rcases Finset.mem_insert.mp hp' with rfl | hp1
          · refine ⟨hid, fun b => ?_⟩
            simpa using hcur b
          · have hne : p ≠ gid := by
              rintro rfl
              exact hg1 hp1
            have := (hinv1.1 p hp1)
            refine ⟨this.1, fun b => ?_⟩
            simpa [hne] using this.2 b
        · intro q hq
          have hqne : q ≠ gid := by
            rintro rfl
            exact hq (Finset.mem_insert_self _ _)
          have hq1 : q ∉ st1.processed := by
            intro h
            exact hq (Finset.mem_insert_of_mem h)
          simpa [hqne] using hinv1.2 q hq1
        · exact Finset.Subset.trans hmono1 (Finset.subset_insert _ _)
        · intro x hx
          rcases Finset.mem_insert.mp hx with rfl | hx1
          · exact Or.inr (Or.inl rfl)
          · rcases hreach1 x hx1 with hx2 | ⟨c, hc, rfl | hd⟩
            · exact Or.inl hx2
            · exact Or.inr (Or.inr (Relation.TransGen.single ⟨hid, hc⟩))
            · exact Or.inr (Or.inr (Relation.TransGen.head ⟨hid, hc⟩ hd))
        · intro _
          exact Finset.mem_insert_self _ _
      · rw [processGenre, if_neg hp, if_pos hid]
        exact ⟨hinv, Finset.Subset.refl _, fun x hx => Or.inl hx,
          fun h => absurd h hid⟩

theorem aggFinal_spec (genres : List Genre) (books : List Book)
    (rank : String → Nat)
    (hrank : ∀ p c, childStep genres p c → rank c < rank p)
    (hbound : ∀ x, rank x < genres.length + 1) :
    AggInv genres books (aggFinal genres books) ∧
    ∀ g ∈ genres.map (·.id), g ∈ (aggFinal genres books).processed := by
  have Hfold : ∀ (l : List Genre) (st : AggSt), AggInv genres books st →
      AggInv genres books
        (l.foldl (fun st g =>
          processGenre (genres.map (·.id)) (childrenMap genres)
            (genres.length + 1) g.id st) st) ∧
      st.processed ⊆ (l.foldl (fun st g =>
        processGenre (genres.map (·.id)) (childrenMap genres)
          (genres.length + 1) g.id st) st).processed ∧
      (∀ g ∈ l, g.id ∈ genres.map (·.id) →
        g.id ∈ (l.foldl (fun st g =>
          processGenre (genres.map (·.id)) (childrenMap genres)
            (genres.length + 1) g.id st) st).processed) := by
    intro l
    induction l with
    | nil =>
      intro st hst
      exact ⟨hst, Finset.Subset.refl _, by simp⟩
    | cons g rest ih =>
      intro st hst
      simp only [List.foldl_cons]
      obtain ⟨h1, h2, _, h4⟩ :=
        processGenre_preserves genres books rank hrank (genres.length + 1)
          g.id st hst (hbound g.id)
      obtain ⟨g1, g2, g3⟩ := ih _ h1
      refine ⟨g1, Finset.Subset.trans h2 g2, ?_⟩
      intro g' hg' hgid
      rcases List.mem_cons.mp hg' with rfl | hg''
      · exact g2 (h4 hgid)
      · exact g3 g' hg'' hgid
  have hinit : AggInv genres books (aggInit genres books) := by
    constructor
    · intro p hp
      simp [aggInit] at hp
    · intro q _
      rfl
  obtain ⟨h1, _, h3⟩ := Hfold genres (aggInit genres books) hinit
  refine ⟨h1, ?_⟩
  intro g hg
  rcases List.mem_map.mp hg with ⟨g', hg', rfl⟩
  exact h3 g' hg' hg

/-- The final aggregated book set of each snapshot genre is exactly
the union of its own and its descendants' direct book sets. -/
theorem aggFinal_agg_spec (genres : List Genre) (books : List Book)
    (rank : String → Nat)
    (hrank : ∀ p c, childStep genres p c → rank c < rank p)
    (hbound : ∀ x, rank x < genres.length + 1)
    (g : String) (hg : g ∈ genres.map (·.id)) (b : String) :
    b ∈ (aggFinal genres books).agg g ↔ SpecMem genres books g b := by
  obtain ⟨hinv, hall⟩ := aggFinal_spec genres books rank hrank hbound
  exact (hinv.1 g (hall g hg)).2 b

theorem aggregate_lookup (genres : List Genre) (books : List Book)
    (k : String) (hk : k ∈ genres.map (·.id)) :
    jsMapGet (aggregate genres books) k =
      some ((aggFinal genres books).agg k).card := by
  apply jsMapGet_map_of_mem
  rw [mem_objKeys]
  exact hk

theorem aggregate_keys (genres : List Genre) (books : List Book) :
    (aggregate genres books).map Prod.fst = objKeys genres := by
  rw [aggregate, List.map_map]
  have : (Prod.fst ∘ fun k => (k, ((aggFinal genres books).agg k).card)) =
      fun k => k := rfl
  rw [this, List.map_id']

theorem jsMapSet_of_not_mem {α : Type} (m : List (String × α)) (k : String)
    (v : α) (hk : k ∉ m.map Prod.fst) : jsMapSet m k v = m ++ [(k, v)] := by
  rw [jsMapSet, if_neg]
  simp only [List.any_eq_true, beq_iff_eq, not_exists, not_and]
  intro p hp hpk
  exact hk (List.mem_map.mpr ⟨p, hp, hpk⟩)

theorem zeros_fold_aux (gs : List Genre) (acc : List (String × Nat))
    (hfresh : ∀ g ∈ gs, g.id ∉ acc.map Prod.fst)
    (hnd : (gs.map (·.id)).Nodup) :
    gs.foldl (fun m g => jsMapSet m g.id 0) acc =
      acc ++ gs.map (fun g => (g.id, 0)) := by
  induction gs generalizing acc with
  | nil => simp
  | cons g rest ih =>
    simp only [List.map_cons, List.nodup_cons, List.mem_map] at hnd
    simp only [List.foldl_cons,
      jsMapSet_of_not_mem acc g.id 0 (hfresh g (List.mem_cons_self g rest))]
    rw [ih (acc ++ [(g.id, 0)])]
    · simp
    · intro g' hg'
      simp only [List.map_append, List.mem_append, List.map_cons,
        List.map_nil, List.mem_singleton, not_or]
      refine ⟨hfresh g' (List.mem_cons_of_mem _ hg'), ?_⟩
      intro h
      exact hnd.1 ⟨g', hg', h⟩
    · exact hnd.2

/-- `for (const genre of genres) emptyCounts.set(genre.id, 0)` builds
the all-zero count map over the snapshot's genres. -/
theorem zeros_fold_eq (gs : List Genre) (hnd : (gs.map (·.id)).Nodup) :
    gs.foldl (fun m g => jsMapSet m g.id 0) [] =
      gs.map (fun g => (g.id, 0)) := by
  rw [zeros_fold_aux gs [] (by simp) hnd]
  simp

theorem ensurePopulated_of_some (db : Db) (st : ServiceState)
    (gs : List Genre) (hpop : st.genreIdToGenre = some gs) :
    ensurePopulated db st = st := by
  rw [ensurePopulated, if_pos]
  rw [hpop]
  rfl

theorem genreValues_of_some (st : ServiceState) (gs : List Genre)
    (hpop : st.genreIdToGenre = some gs) : genreValues st = gs := by
  rw [genreValues, hpop]
  rfl

/-! ### Claim theorems -/

/-- **C1**: for every acyclic genre snapshot (dangling `parentGenre`
references treated as roots, i.e. they contribute no hierarchy edge)
and every set of direct book-genre associations,
`calculateAggregatedCounts` returns for every genre a count equal to
the cardinality of the union of the genre's direct book-id set with
the direct book-id sets of all its direct and transitive descendants
(so a book reachable through several descendants is counted once), and
the count of a genre is at least the count of each of its
descendants. -/
theorem calculateAggregatedCounts_union_spec
    (db : Db) (params : Option GenreFilter) (st : ServiceState)
    (gs : List Genre) (rank : String → Nat)
    (hpop : st.genreIdToGenre = some gs)
    (hcache : st.cachedAggregatedCounts = none)
    (herr : db.bookQueryError = none)
    (hrank : ∀ p c, childStep gs p c → rank c < rank p) :
    ∃ m st2, calculateAggregatedCounts db params st = .ok (m, st2) ∧
      (∀ g ∈ gs, ∃ S : Finset String,
        (∀ b, b ∈ S ↔
          b ∈ genreToBooks (db.books.filter (matchesFilter params)) g.id ∨
          ∃ d, Descendant gs g.id d ∧
            b ∈ genreToBooks (db.books.filter (matchesFilter params)) d) ∧
        jsMapGet m g.id = some S.card) ∧
      (∀ g d, g ∈ gs.map (·.id) → Descendant gs g d →
        ∃ cg cd, jsMapGet m g = some cg ∧ jsMapGet m d = some cd ∧
          cd ≤ cg) := by
  obtain ⟨rank', hrank', hbound⟩ := exists_bounded_rank gs rank hrank
  have hens := ensurePopulated_of_some db st gs hpop
  have hgv := genreValues_of_some st gs hpop
  set books := db.books.filter (matchesFilter params) with hbooks
  have hpost :
      (∀ g ∈ gs, ∃ S : Finset String,
        (∀ b, b ∈ S ↔
          b ∈ genreToBooks books g.id ∨
          ∃ d, Descendant gs g.id d ∧ b ∈ genreToBooks books d) ∧
        jsMapGet (aggregate gs books) g.id = some S.card) ∧
      (∀ g d, g ∈ gs.map (·.id) → Descendant gs g d →
        ∃ cg cd, jsMapGet (aggregate gs books) g = some cg ∧
          jsMapGet (aggregate gs books) d = some cd ∧ cd ≤ cg) := by
    constructor
    · intro g hg
      have hgid : g.id ∈ gs.map (·.id) := List.mem_map.mpr ⟨g, hg, rfl⟩
      refine ⟨(aggFinal gs books).agg g.id, ?_, ?_⟩
      · intro b
        exact aggFinal_agg_spec gs books rank' hrank' hbound g.id hgid b
      · exact aggregate_lookup gs books g.id hgid
    · intro g d hg hd
      have hdid : d ∈ gs.map (·.id) := descendant_mem_ids hd
      refine ⟨((aggFinal gs books).agg g).card,
        ((aggFinal gs books).agg d).card,
        aggregate_lookup gs books g hg, aggregate_lookup gs books d hdid, ?_⟩
      apply Finset.card_le_card
      intro b hb
      have hbd := (aggFinal_agg_spec gs books rank' hrank' hbound d hdid
        b).mp hb
      apply (aggFinal_agg_spec gs books rank' hrank' hbound g hg b).mpr
      rcases hbd with hb' | ⟨d', hdd', hb'⟩
      · exact Or.inr ⟨d, hd, hb'⟩
      · exact Or.inr ⟨d', Relation.TransGen.trans hd hdd', hb'⟩
  by_cases hef : emptyFilter params
  · refine ⟨aggregate gs books,
      { (st : ServiceState) with
        cachedAggregatedCounts := some (aggregate gs books) }, ?_,
      hpost.1, hpost.2⟩
    simp only [calculateAggregatedCounts, hens, hcache, herr,
      Option.isSome_none, Bool.and_false, Bool.false_eq_true, if_false,
      hgv, hef, if_true]
  · refine ⟨aggregate gs books, st, ?_, hpost.1, hpost.2⟩
    simp only [calculateAggregatedCounts, hens, hcache, herr,
      Option.isSome_none, Bool.and_false, Bool.false_eq_true, if_false,
      hgv, hef]

/-! ### Concrete fixtures for witnesses and counterexamples -/

/-- Root genre `A`. -/
def wGA : Genre := ⟨"A", "a", none, 0⟩

/-- Genre `B`, child of `A`. -/
def wGB : Genre := ⟨"B", "b", some "A", 0⟩

/-- Genre `C`, child of `B`. -/
def wGC : Genre := ⟨"C", "c", some "B", 0⟩

/-- The three-level chain `A → B → C`. -/
def wGenres1 : List Genre := [wGA, wGB, wGC]

/-- A book directly tagged with `C` only. -/
def wBook1 : Book := ⟨"b1", "auth", 100, [], ["C"]⟩

def wDb1 : Db := ⟨wGenres1, [], [wBook1], none⟩

def wSt1 : ServiceState := ⟨some wGenres1, some wGenres1, none⟩

/-- A rank function witnessing acyclicity of `wGenres1`. -/
def wRank1 : String → Nat :=
  fun s => if s = "A" then 2 else if s = "B" then 1 else 0

theorem wRank1_decreasing :
    ∀ p c, childStep wGenres1 p c → wRank1 c < wRank1 p := by
  intro p c h
  obtain ⟨g, hg, rfl, hpar, _⟩ := (childrenMap_mem wGenres1 p c).mp h.2
  simp only [wGenres1, List.mem_cons, List.not_mem_nil, or_false] at hg
  rcases hg with rfl | rfl | rfl
  · exact absurd hpar (by simp [wGA])
  · have hp : p = "A" := by
      simpa [wGB] using hpar.symm
    subst hp
    decide
  · have hp : p = "B" := by
      simpa [wGC] using hpar.symm
    subst hp
    decide

/-- **C2**: when the book query throws a transient connectivity error
(code `P1001` or `P1000`), `calculateAggregatedCounts` does not raise:
it returns the cached no-filter aggregation when one exists, else the
all-zero count map over the snapshot's genres; any other error code
propagates unchanged (provided the query actually runs, i.e. the call
is not already answered from the cache). -/
theorem calculateAggregatedCounts_transient_fallback
    (db : Db) (params : Option GenreFilter) (st : ServiceState)
    (gs : List Genre) (code : String)
    (hpop : st.genreIdToGenre = some gs)
    (hnd : (gs.map (·.id)).Nodup)
    (herr : db.bookQueryError = some code) :
    ((code = "P1001" ∨ code = "P1000") →
      (∀ m, st.cachedAggregatedCounts = some m →
        calculateAggregatedCounts db params st = .ok (m, st)) ∧
      (st.cachedAggregatedCounts = none →
        calculateAggregatedCounts db params st =
          .ok (gs.map (fun g => (g.id, 0)), st))) ∧
    ((code ≠ "P1001" ∧ code ≠ "P1000") →
      (st.cachedAggregatedCounts = none ∨ emptyFilter params = false) →
      calculateAggregatedCounts db params st = .error code) := by
  have hens := ensurePopulated_of_some db st gs hpop
  have hgv := genreValues_of_some st gs hpop
  constructor
  · intro htr
    have hcode : (code == "P1001" || code == "P1000") = true := by
      rcases htr with rfl | rfl <;> simp
    constructor
    · intro m hm
      by_cases hef : emptyFilter params
      · simp only [calculateAggregatedCounts, hens, hm, hef,
          Option.isSome_some, Bool.and_self, if_true, Option.getD_some]
      · simp only [calculateAggregatedCounts, hens, hm, hef, herr,
          Bool.false_and, Bool.false_eq_true, if_false, hcode, if_true]
    · intro hm
      simp only [calculateAggregatedCounts, hens, hm, herr,
        Option.isSome_none, Bool.and_false, Bool.false_eq_true, if_false,
        hcode, if_true, hgv, zeros_fold_eq gs hnd]
  · rintro ⟨h1, h2⟩ hside
    have hcode : (code == "P1001" || code == "P1000") = false := by
      simp [h1, h2]
    have hcond : (emptyFilter params &&
        st.cachedAggregatedCounts.isSome) = false := by
      rcases hside with hm | hef
      · simp [hm]
      · simp [hef]
    simp only [calculateAggregatedCounts, hens, hcond, Bool.false_eq_true,
      if_false, herr, hcode]

/-- The reachable-state invariant of the aggregation cache: when a map
is cached, its key list is exactly the snapshot's genre-id key list. -/
def CacheInv (st : ServiceState) : Prop :=
  ∀ m, st.cachedAggregatedCounts = some m →
    m.map Prod.fst = objKeys (genreValues st)

theorem ensurePopulated_cacheInv (db : Db) (st : ServiceState)
    (hinv : CacheInv st) : CacheInv (ensurePopulated db st) := by
  rw [ensurePopulated]
  by_cases h : st.genreIdToGenre.isSome = true
  · rw [if_pos h]
    exact hinv
  · rw [if_neg h]
    intro m hm
    cases hm

/-- **C9**: every successful return of `calculateAggregatedCounts` —
computed, cached, or the transient fallback — carries a map whose key
list is exactly the (lazily populated) snapshot's genre-id key list,
and the cache invariant is preserved. -/
theorem calculateAggregatedCounts_keyset
    (db : Db) (params : Option GenreFilter) (st : ServiceState)
    (hinv : CacheInv st) :
    ∀ m st2, calculateAggregatedCounts db params st = .ok (m, st2) →
      m.map Prod.fst = objKeys (genreValues (ensurePopulated db st)) ∧
      CacheInv st2 := by
  intro m st2 h
  have hinv1 : CacheInv (ensurePopulated db st) :=
    ensurePopulated_cacheInv db st hinv
  simp only [calculateAggregatedCounts] at h
  by_cases hc : (emptyFilter params &&
      (ensurePopulated db st).cachedAggregatedCounts.isSome) = true
  · rw [if_pos hc] at h
    rcases hcc : (ensurePopulated db st).cachedAggregatedCounts with _ | m'
    · rw [hcc] at hc
      simp at hc
    · rw [hcc] at h
      simp only [Option.getD_some, Except.ok.injEq, Prod.mk.injEq] at h
      obtain ⟨rfl, rfl⟩ := h
      exact ⟨hinv1 m' hcc, hinv1⟩
  · rw [if_neg hc] at h
    rcases hbe : db.bookQueryError with _ | code
    · rw [hbe] at h
      simp only at h
      by_cases hef : emptyFilter params
      · rw [if_pos hef] at h
        simp only [Except.ok.injEq, Prod.mk.injEq] at h
        obtain ⟨rfl, rfl⟩ := h
        refine ⟨aggregate_keys _ _, ?_⟩
        intro m' hm'
        simp only [Option.some_inj] at hm'
        subst hm'
        exact aggregate_keys _ _
      · rw [if_neg hef] at h
        simp only [Except.ok.injEq, Prod.mk.injEq] at h
        obtain ⟨rfl, rfl⟩ := h
        exact ⟨aggregate_keys _ _, hinv1⟩
    · rw [hbe] at h
      simp only at h
      by_cases htr : (code == "P1001" || code == "P1000") = true
      · rw [if_pos htr] at h
        rcases hcc : (ensurePopulated db st).cachedAggregatedCounts with _ | m'
        · rw [hcc] at h
          simp only [Except.ok.injEq, Prod.mk.injEq] at h
          obtain ⟨rfl, rfl⟩ := h
          refine ⟨?_, hinv1⟩
          rw [foldl_jsMapSet_keys (genreValues (ensurePopulated db st))
            (fun _ => (0 : Nat)) []]
          rfl
        · rw [hcc] at h
          simp only [Except.ok.injEq, Prod.mk.injEq] at h
          obtain ⟨rfl, rfl⟩ := h
          exact ⟨hinv1 m' hcc, hinv1⟩
      · rw [if_neg htr] at h
        cases h

/-- State with a populated single-genre snapshot and a cached no-filter
aggregation `{A: 5}`. -/
def wStCached : ServiceState := ⟨some [wGA], some [wGA], some [("A", 5)]⟩

/-- A backing store whose book query throws with code `P1001`. -/
def wDbP1001 : Db := ⟨[wGA], [], [], some "P1001"⟩

/-- A backing store whose book query throws with code `P2002`. -/
def wDbP2002 : Db := ⟨[wGA], [], [], some "P2002"⟩

/-- Witness for C2: with a populated cache `{A: 5}` a transient failure
returns `{A: 5}`; without a cache it returns `{A: 0}`; `P2002`
propagates. -/
theorem calculateAggregatedCounts_transient_fallback_witness :
    (("P1001" = "P1001" ∨ "P1001" = "P1000") →
      (∀ m, wStCached.cachedAggregatedCounts = some m →
        calculateAggregatedCounts wDbP1001 none wStCached = .ok (m, wStCached)) ∧
      (wStCached.cachedAggregatedCounts = none →
        calculateAggregatedCounts wDbP1001 none wStCached =
          .ok ([wGA].map (fun g => (g.id, 0)), wStCached))) ∧
    (("P1001" ≠ "P1001" ∧ "P1001" ≠ "P1000") →
      (wStCached.cachedAggregatedCounts = none ∨
        emptyFilter none = false) →
      calculateAggregatedCounts wDbP1001 none wStCached = .error "P1001") :=
  calculateAggregatedCounts_transient_fallback wDbP1001 none wStCached
    [wGA] "P1001" rfl (by decide) rfl

/-- A populated single-genre state with cached aggregation `{A: 42}`. -/
def wStC42 : ServiceState := ⟨some [wGA], some [wGA], some [("A", 42)]⟩

/-- A populated single-genre state with cached aggregation `{A: 7}`. -/
def wStC7 : ServiceState := ⟨some [wGA], some [wGA], some [("A", 7)]⟩

/-- A filter whose `authorId` is present (and truthy). -/
def wFilterAuthor : GenreFilter := ⟨some "x", none, none, none⟩

/-- Counterexample to C3 as stated: a call with `authorId` present
(`"x"`) whose book query fails transiently returns the cached
no-filter map — the same call on two states differing only in the
cache returns different results, so a filtered call can read the cache
and its result can depend on the cache's contents. -/
theorem calculateAggregatedCounts_filtered_reads_cache_cex :
    calculateAggregatedCounts wDbP1001 (some wFilterAuthor) wStC42 =
      .ok ([("A", 42)], wStC42) ∧
    calculateAggregatedCounts wDbP1001 (some wFilterAuthor) wStC7 =
      .ok ([("A", 7)], wStC7) :=
  ⟨rfl, rfl⟩

/-- **C3 amended**: when at least one filter field is truthy (for
`authorId`/`regionId`: present and nonempty) and the book query does
not fail with a transient connectivity error, the call neither reads
nor writes the no-filter cache: the resulting state keeps the incoming
cache value unchanged and the returned value is the same for every
cache content.  (As stated the claim fails twice: the transient-error
fallback of C2 returns the cached map even for filtered calls, and an
`authorId` that is present but empty is falsy, so such a call takes
the no-filter cache path.) -/
theorem calculateAggregatedCounts_filtered_cache_frame
    (db : Db) (f : GenreFilter) (st : ServiceState) (gs : List Genre)
    (hpop : st.genreIdToGenre = some gs)
    (htruthy : emptyFilter (some f) = false)
    (herr : ∀ code, db.bookQueryError = some code →
      code ≠ "P1001" ∧ code ≠ "P1000") :
    ∀ c, calculateAggregatedCounts db (some f)
        { st with cachedAggregatedCounts := c } =
      (calculateAggregatedCounts db (some f)
        { st with cachedAggregatedCounts := none }).map
        (fun r => (r.1, { r.2 with cachedAggregatedCounts := c })) := by
  intro c
  have hens1 : ensurePopulated db { st with cachedAggregatedCounts := c } =
      { st with cachedAggregatedCounts := c } :=
    ensurePopulated_of_some db _ gs hpop
  have hens2 : ensurePopulated db { st with cachedAggregatedCounts := none } =
      { st with cachedAggregatedCounts := none } :=
    ensurePopulated_of_some db _ gs hpop
  have hgv1 : genreValues { st with cachedAggregatedCounts := c } = gs :=
    genreValues_of_some _ gs hpop
  have hgv2 : genreValues { st with cachedAggregatedCounts := none } = gs :=
    genreValues_of_some _ gs hpop
  rcases hbe : db.bookQueryError with _ | code
  · simp only [calculateAggregatedCounts, hens1, hens2, htruthy,
      Bool.false_and, Bool.false_eq_true, if_false, hbe, hgv1, hgv2,
      Except.map]
  · obtain ⟨h1, h2⟩ := herr code hbe
    have hcode : (code == "P1001" || code == "P1000") = false := by
      simp [h1, h2]
    simp only [calculateAggregatedCounts, hens1, hens2, htruthy,
      Bool.false_and, Bool.false_eq_true, if_false, hbe, hcode,
      Except.map]

/-- A single-genre backing store with no books and a healthy book
query. -/
def wDbA : Db := ⟨[wGA], [], [], none⟩

/-- A populated single-genre state with no cached aggregation. -/
def wStA : ServiceState := ⟨some [wGA], some [wGA], none⟩

/-- Witness for the amended C3 at a truthy `authorId` filter and the
cache `{A: 42}`. -/
theorem calculateAggregatedCounts_filtered_cache_frame_witness :
    calculateAggregatedCounts wDbA (some wFilterAuthor)
        { wStA with cachedAggregatedCounts := some [("A", 42)] } =
      (calculateAggregatedCounts wDbA (some wFilterAuthor)
        { wStA with cachedAggregatedCounts := none }).map
        (fun r =>
          (r.1, { r.2 with cachedAggregatedCounts := some [("A", 42)] })) :=
  calculateAggregatedCounts_filtered_cache_frame wDbA wFilterAuthor wStA
    [wGA] rfl rfl (fun code h => by cases h) (some [("A", 42)])

/-- **C6**: `populateAdvancedGenres` replaces the snapshot wholesale
from the backing data, so a second call with unchanged backing data
yields the same state, the same `getById`/`getBySlug` results, and
every call leaves the aggregation cache discarded. -/
theorem populateAdvancedGenres_idempotent (db : Db) (st : ServiceState)
    (id slug : String) :
    populateAdvancedGenres db (populateAdvancedGenres db st) =
      populateAdvancedGenres db st ∧
    getAdvancedGenreById db id
        (populateAdvancedGenres db (populateAdvancedGenres db st)) =
      getAdvancedGenreById db id (populateAdvancedGenres db st) ∧
    getAdvancedGenreBySlug db slug
        (populateAdvancedGenres db (populateAdvancedGenres db st)) =
      getAdvancedGenreBySlug db slug (populateAdvancedGenres db st) ∧
    (populateAdvancedGenres db
        (populateAdvancedGenres db st)).cachedAggregatedCounts = none ∧
    (populateAdvancedGenres db st).cachedAggregatedCounts = none :=
  ⟨rfl, rfl, rfl, rfl, rfl⟩

/-- Backing store with two advanced-genre rows but five rows in the
(simple) `genre` table. -/
def wDbCount : Db := ⟨[wGA, wGB], ["g1", "g2", "g3", "g4", "g5"], [], none⟩

/-- **C8** (failing input): with the snapshot never populated,
`getAdvancedGenreCount` returns `db.genre.count()` — the size of the
simple-genre table (5) — although the backing store holds 2
advanced-genre rows (which the populated path would report). -/
theorem getAdvancedGenreCount_unpopulated_counts_genre_table :
    getAdvancedGenreCount wDbCount ⟨none, none, none⟩ = 5 ∧
    wDbCount.advancedGenres.length = 2 ∧
    wDbCount.genreTable.length = 5 ∧
    getAdvancedGenreCount wDbCount
      (populateAdvancedGenres wDbCount ⟨none, none, none⟩) = 2 :=
  ⟨rfl, rfl, rfl, rfl⟩

/-- Every successful `calculateAggregatedCounts` call leaves the two
snapshot lookup objects exactly as the lazy-populate prologue left
them (only the cache field can change). -/
theorem calculateAggregatedCounts_state_shape
    (db : Db) (params : Option GenreFilter) (st : ServiceState) :
    ∀ m st1, calculateAggregatedCounts db params st = .ok (m, st1) →
      st1.genreIdToGenre = (ensurePopulated db st).genreIdToGenre ∧
      st1.genreSlugToGenre = (ensurePopulated db st).genreSlugToGenre := by
  intro m st1 h
  simp only [calculateAggregatedCounts] at h
  by_cases hc : (emptyFilter params &&
      (ensurePopulated db st).cachedAggregatedCounts.isSome) = true
  · rw [if_pos hc] at h
    simp only [Except.ok.injEq, Prod.mk.injEq] at h
    obtain ⟨-, rfl⟩ := h
    exact ⟨rfl, rfl⟩
  · rw [if_neg hc] at h
    rcases hbe : db.bookQueryError with _ | code
    · rw [hbe] at h
      simp only at h
      by_cases hef : emptyFilter params
      · rw [if_pos hef] at h
        simp only [Except.ok.injEq, Prod.mk.injEq] at h
        obtain ⟨-, rfl⟩ := h
        exact ⟨rfl, rfl⟩
      · rw [if_neg hef] at h
        simp only [Except.ok.injEq, Prod.mk.injEq] at h
        obtain ⟨-, rfl⟩ := h
        exact ⟨rfl, rfl⟩
    · rw [hbe] at h
      simp only at h
      by_cases htr : (code == "P1001" || code == "P1000") = true
      · rw [if_pos htr] at h
        rcases hcc : (ensurePopulated db st).cachedAggregatedCounts with _ | m'
        · rw [hcc] at h
          simp only [Except.ok.injEq, Prod.mk.injEq] at h
          obtain ⟨-, rfl⟩ := h
          exact ⟨rfl, rfl⟩
        · rw [hcc] at h
          simp only [Except.ok.injEq, Prod.mk.injEq] at h
          obtain ⟨-, rfl⟩ := h
          exact ⟨rfl, rfl⟩
      · rw [if_neg htr] at h
        cases h

theorem nodup_id_inj {gs : List Genre} (hnd : (gs.map (·.id)).Nodup)
    {g1 g2 : Genre} (h1 : g1 ∈ gs) (h2 : g2 ∈ gs) (heq : g1.id = g2.id) :
    g1 = g2 :=
  List.inj_on_of_nodup_map hnd h1 h2 heq

/-- The output of `aggregateChildGenresToParents` in terms of its
aggregation call's result. -/
theorem aggregateChildGenresToParents_eq
    (db : Db) (params : Option GenreFilter) (st : ServiceState)
    (m : List (String × Nat)) (st1 : ServiceState)
    (hens : ensurePopulated db st = st)
    (hcalc : calculateAggregatedCounts db params st = .ok (m, st1)) :
    aggregateChildGenresToParents db params st = .ok
      (((((genreValues st1).map fun g =>
            { g with numberOfBooks := (jsMapGet m g.id).getD 0 }).filter
          (fun g => params.isNone ||
            decide (0 < (jsMapGet m g.id).getD 0))).mergeSort
          (fun a b =>
            (jsMapGet m b.id).getD 0 ≤ (jsMapGet m a.id).getD 0)).map
        makeGenreDto, st1) := by
  simp only [aggregateChildGenresToParents, hens, hcalc, bind, Except.bind,
    pure, Except.pure]

/-- **C4 amended**: at the service level, `listAll` with no params
object returns a permutation of every snapshot genre carrying its
aggregated count (zero-count genres included, reported with
`numberOfBooks` 0), and `listAll` with a params object — whatever its
fields — excludes every genre whose aggregated count is zero.  The
`GET /genre` route always passes a params object, so route listings
exclude zero-count genres even when no query filter was supplied (this
is where the claim as stated fails). -/
theorem listAll_zero_count_filtering
    (db : Db) (st : ServiceState) (gs : List Genre)
    (hpop : st.genreIdToGenre = some gs)
    (hnd : (gs.map (·.id)).Nodup) :
    (∀ m st1, calculateAggregatedCounts db none st = .ok (m, st1) →
      ∃ dtos st2,
        aggregateChildGenresToParents db none st = .ok (dtos, st2) ∧
        dtos.Perm (gs.map (fun g =>
          makeGenreDto { g with numberOfBooks := (jsMapGet m g.id).getD 0 }))) ∧
    (∀ f m st1 dtos st2,
      calculateAggregatedCounts db (some f) st = .ok (m, st1) →
      aggregateChildGenresToParents db (some f) st = .ok (dtos, st2) →
      ∀ g ∈ gs, (jsMapGet m g.id).getD 0 = 0 →
        ∀ d ∈ dtos, d.id ≠ g.id) ∧
    (∀ q st', routeGetGenres db q st' =
      getAllAdvancedGenres db
        (some ⟨q.authorId, q.bookIds, q.yearRange, q.regionId⟩) st') := by
  have hens := ensurePopulated_of_some db st gs hpop
  refine ⟨?_, ?_, fun q st' => rfl⟩
  · intro m st1 hcalc
    have hshape := calculateAggregatedCounts_state_shape db none st m st1 hcalc
    have hgv1 : genreValues st1 = gs := by
      rw [genreValues, hshape.1, hens, hpop]
      rfl
    have heq := aggregateChildGenresToParents_eq db none st m st1 hens hcalc
    refine ⟨_, st1, heq, ?_⟩
    rw [hgv1]
    have hfil : ((gs.map fun g =>
        { g with numberOfBooks := (jsMapGet m g.id).getD 0 }).filter
        (fun g => (none : Option GenreFilter).isNone ||
          decide (0 < (jsMapGet m g.id).getD 0))) =
        (gs.map fun g =>
          { g with numberOfBooks := (jsMapGet m g.id).getD 0 }) := by
      apply List.filter_eq_self.mpr
      intro g _
      simp
    rw [hfil]
    have hperm := List.mergeSort_perm
      (gs.map fun g =>
        { g with numberOfBooks := (jsMapGet m g.id).getD 0 })
      (fun a b =>
        (jsMapGet m b.id).getD 0 ≤ (jsMapGet m a.id).getD 0)
    have hmap := hperm.map makeGenreDto
    rw [List.map_map] at hmap
    exact hmap
  · intro f m st1 dtos st2 hcalc hagg g hg hzero d hd hdg
    have hshape := calculateAggregatedCounts_state_shape db (some f) st m st1
      hcalc
    have hgv1 : genreValues st1 = gs := by
      rw [genreValues, hshape.1, hens, hpop]
      rfl
    rw [aggregateChildGenresToParents_eq db (some f) st m st1 hens
      hcalc] at hagg
    simp only [Except.ok.injEq, Prod.mk.injEq] at hagg
    obtain ⟨rfl, rfl⟩ := hagg
    rw [hgv1] at hd
    rcases List.mem_map.mp hd with ⟨g', hg', rfl⟩
    have hg'm : g' ∈ (gs.map (fun g =>
        { g with numberOfBooks := (jsMapGet m g.id).getD 0 })).filter
        (fun g => (some f : Option GenreFilter).isNone ||
          decide (0 < (jsMapGet m g.id).getD 0)) :=
      (List.mergeSort_perm _ _).subset hg'
    rw [List.mem_filter] at hg'm
    rcases List.mem_map.mp hg'm.1 with ⟨g0, hg0, rfl⟩
    have hpos : 0 < (jsMapGet m g0.id).getD 0 := by
      have := hg'm.2
      simp only [Option.isNone_some, Bool.false_or, decide_eq_true_eq] at this
      exact this
    have hid0 : g0.id = g.id := hdg
    have : g0 = g := nodup_id_inj hnd hg0 hg hid0
    subst this
    rw [hzero] at hpos
    exact absurd hpos (lt_irrefl 0)

theorem jsMapSet_mem {α : Type} (m : List (String × α)) (k : String) (v : α)
    (q : String × α) (h : q ∈ jsMapSet m k v) : q ∈ m ∨ q = (k, v) := by
  rw [jsMapSet] at h
  by_cases hc : (m.any fun p => p.1 == k) = true
  · rw [if_pos hc] at h
    rcases List.mem_map.mp h with ⟨p, hp, rfl⟩
    by_cases hpk : (p.1 == k) = true
    · rw [if_pos hpk]
      exact Or.inr rfl
    · rw [if_neg hpk]
      exact Or.inl hp
  · rw [if_neg hc] at h
    rcases List.mem_append.mp h with hp | hp
    · exact Or.inl hp
    · exact Or.inr (List.mem_singleton.mp hp)

theorem foldl_jsMapSet_mem_aux {α : Type} (all : List Genre) (v : Genre → α) :
    ∀ (l : List Genre), (∀ g ∈ l, g ∈ all) →
    ∀ (acc : List (String × α)),
      (∀ q ∈ acc, ∃ g ∈ all, q.1 = g.id ∧ q.2 = v g) →
      ∀ q ∈ l.foldl (fun m g => jsMapSet m g.id (v g)) acc,
        ∃ g ∈ all, q.1 = g.id ∧ q.2 = v g := by
  intro l
  induction l with
  | nil =>
    intro _ acc hacc q hq
    exact hacc q hq
  | cons g rest ih =>
    intro hsub acc hacc q hq
    simp only [List.foldl_cons] at hq
    refine ih (fun g' hg' => hsub g' (List.mem_cons_of_mem _ hg')) _ ?_ q hq
    intro q' hq'
    rcases jsMapSet_mem acc g.id (v g) q' hq' with hq'' | rfl
    · exact hacc q' hq''
    · exact ⟨g, hsub g (List.mem_cons_self g rest), rfl, rfl⟩

/-- Every entry of the `idToNode` map comes from a row, keyed by its id
and valued at the node built from it. -/
theorem foldl_jsMapSet_mem {α : Type} (rows : List Genre) (v : Genre → α)
    (q : String × α)
    (hq : q ∈ rows.foldl (fun m g => jsMapSet m g.id (v g)) []) :
    ∃ g ∈ rows, q.1 = g.id ∧ q.2 = v g :=
  foldl_jsMapSet_mem_aux rows v rows (fun _ h => h) [] (by simp) q hq

/-- A row becomes a root of the forest: no parent, empty-string
parent, or a parent id with no node. -/
def rowIsRoot (rows : List Genre) (g : Genre) : Bool :=
  match g.parentGenre with
  | none => true
  | some p => (p == "") || !(decide (p ∈ rows.map (·.id)))

/-- A row becomes a child of node `p`. -/
def isChildRowOf (rows : List Genre) (p : String) (g : Genre) : Bool :=
  (g.parentGenre == some p) && !(p == "") && decide (p ∈ rows.map (·.id))

theorem hierarchyLinks_aux (rows : List Genre)
    (nodes : List (String × TreeNode))
    (hkeys : ∀ p, ((jsMapGet nodes p).isSome = true) ↔ p ∈ rows.map (·.id)) :
    ∀ (l : List Genre) (acc : List String × (String → List String)),
      (l.foldl (linkStep nodes) acc).1 =
        acc.1 ++ (l.filter (rowIsRoot rows)).map (·.id) ∧
      ∀ p, (l.foldl (linkStep nodes) acc).2 p =
        acc.2 p ++ (l.filter (isChildRowOf rows p)).map (·.id) := by
  intro l
  induction l with
  | nil =>
    intro acc
    simp
  | cons g rest ih =>
    intro acc
    simp only [List.foldl_cons]
    rcases hg : g.parentGenre with _ | p
    · have hstep : linkStep nodes acc g = (acc.1 ++ [g.id], acc.2) := by
        rw [linkStep, hg]
      rw [hstep]
      obtain ⟨ih1, ih2⟩ := ih (acc.1 ++ [g.id], acc.2)
      have hroot : rowIsRoot rows g = true := by
        rw [rowIsRoot, hg]
      constructor
      · rw [ih1, List.filter_cons, hroot]
        simp
      · intro p
        rw [ih2 p, List.filter_cons]
        have hnc : isChildRowOf rows p g = false := by
          rw [isChildRowOf, hg]
          simp
        rw [hnc]
        simp
    · by_cases hpe : p = ""
      · subst hpe
        have hstep : linkStep nodes acc g = (acc.1 ++ [g.id], acc.2) := by
          rw [linkStep, hg]
          rfl
        rw [hstep]
        obtain ⟨ih1, ih2⟩ := ih (acc.1 ++ [g.id], acc.2)
        have hroot : rowIsRoot rows g = true := by
          rw [rowIsRoot, hg]
          simp
        refine ⟨by rw [ih1, List.filter_cons, hroot]; simp, ?_⟩
        intro q
        rw [ih2 q, List.filter_cons]
        have hnc : isChildRowOf rows q g = false := by
          rw [isChildRowOf, hg]
          by_cases hq : q = ""
          · subst hq
            rfl
          · have h1 : (some "" == some q) = false := by
              rw [beq_eq_false_iff_ne]
              intro h
              exact hq (Option.some_inj.mp h).symm
            rw [h1]
            rfl
        rw [hnc]
        simp
      · by_cases hmem : (jsMapGet nodes p).isSome = true
        · have hstep : linkStep nodes acc g =
              (acc.1, fun x => if x = p then acc.2 x ++ [g.id]
                else acc.2 x) := by
            simp only [linkStep, hg]
            rw [if_neg hpe, if_pos hmem]
          rw [hstep]
          have hpm : p ∈ rows.map (·.id) := (hkeys p).mp hmem
          obtain ⟨ih1, ih2⟩ := ih
            (acc.1, fun x => if x = p then acc.2 x ++ [g.id] else acc.2 x)
          have hroot : rowIsRoot rows g = false := by
            rw [rowIsRoot, hg]
            simp [hpe, hpm]
          refine ⟨by rw [ih1, List.filter_cons, hroot]; simp, ?_⟩
          intro q
          rw [ih2 q, List.filter_cons]
          by_cases hqp : q = p
          · subst hqp
            have hc : isChildRowOf rows q g = true := by
              rw [isChildRowOf, hg]
              have h2 : (q == "") = false := beq_eq_false_iff_ne.mpr hpe
              rw [h2, decide_eq_true hpm]
              simp
            rw [hc]
            simp
          · have hnc : isChildRowOf rows q g = false := by
              rw [isChildRowOf, hg]
              have h1 : (some p == some q) = false := by
                rw [beq_eq_false_iff_ne]
                intro h
                exact hqp (Option.some_inj.mp h).symm
              rw [h1]
              rfl
            rw [hnc]
            simp [hqp]
        · have hstep : linkStep nodes acc g = (acc.1 ++ [g.id], acc.2) := by
            simp only [linkStep, hg]
            rw [if_neg hpe, if_neg hmem]
          rw [hstep]
          have hpm : p ∉ rows.map (·.id) := fun h => hmem ((hkeys p).mpr h)
          obtain ⟨ih1, ih2⟩ := ih (acc.1 ++ [g.id], acc.2)
          have hroot : rowIsRoot rows g = true := by
            rw [rowIsRoot, hg]
            simp [hpm]
          refine ⟨by rw [ih1, List.filter_cons, hroot]; simp, ?_⟩
          intro q
          rw [ih2 q, List.filter_cons]
          have hnc : isChildRowOf rows q g = false := by
            rw [isChildRowOf, hg]
            by_cases hqp : q = p
            · subst hqp
              rw [decide_eq_false hpm]
              simp
            · have h1 : (some p == some q) = false := by
                rw [beq_eq_false_iff_ne]
                intro h
                exact hqp (Option.some_inj.mp h).symm
              rw [h1]
              rfl
          rw [hnc]
          simp

theorem count_filter_map_id (rows : List Genre)
    (hnd : (rows.map (·.id)).Nodup) (pred : Genre → Bool)
    (g : Genre) (hg : g ∈ rows) :
    ((rows.filter pred).map (·.id)).count g.id =
      if pred g = true then 1 else 0 := by
  have hzero : ∀ (l : List Genre), (∀ x ∈ l, x.id ≠ g.id) →
      ((l.filter pred).map (·.id)).count g.id = 0 := by
    intro l hl
    rw [List.count_eq_zero]
    intro hmem
    rcases List.mem_map.mp hmem with ⟨x, hx, hxid⟩
    exact hl x (List.mem_of_mem_filter hx) hxid
  induction rows with
  | nil => cases hg
  | cons r rest ih =>
    simp only [List.map_cons, List.nodup_cons, List.mem_map] at hnd
    obtain ⟨hr, hndr⟩ := hnd
    rcases List.mem_cons.mp hg with rfl | hg'
    · have hrest : ∀ x ∈ rest, x.id ≠ g.id := by
        intro x hx h
        exact hr ⟨x, hx, h⟩
      rw [List.filter_cons]
      by_cases hp : pred g = true
      · rw [if_pos hp, List.map_cons, List.count_cons, hzero rest hrest,
          if_pos hp]
        simp
      · rw [if_neg hp, hzero rest hrest, if_neg hp]
    · have hgid : (r.id == g.id) = false := by
        rw [beq_eq_false_iff_ne]
        intro h
        exact hr ⟨g, hg', h.symm⟩
      rw [List.filter_cons]
      by_cases hp : pred r = true
      · rw [if_pos hp, List.map_cons, List.count_cons, hgid]
        simp only [Bool.false_eq_true, if_false, Nat.add_zero]
        exact ih hndr hg'
      · rw [if_neg hp]
        exact ih hndr hg'

theorem ensurePopulated_populated (db : Db) (st : ServiceState) :
    (ensurePopulated db st).genreIdToGenre.isSome = true := by
  rw [ensurePopulated]
  by_cases h : st.genreIdToGenre.isSome = true
  · rw [if_pos h]
    exact h
  · rw [if_neg h]
    rfl

theorem ensurePopulated_idem (db : Db) (st : ServiceState) :
    ensurePopulated db (ensurePopulated db st) = ensurePopulated db st := by
  conv_lhs => rw [ensurePopulated]
  rw [if_pos (ensurePopulated_populated db st)]

/-- The lazy-populate prologue makes `calculateAggregatedCounts`
insensitive to pre-populating its input state. -/
theorem calculateAggregatedCounts_ensure (db : Db)
    (params : Option GenreFilter) (st : ServiceState) :
    calculateAggregatedCounts db params (ensurePopulated db st) =
      calculateAggregatedCounts db params st := by
  simp only [calculateAggregatedCounts, ensurePopulated_idem]

/-- With a healthy book query the aggregation call always succeeds. -/
theorem calculateAggregatedCounts_ok (db : Db)
    (params : Option GenreFilter) (st : ServiceState)
    (herr : db.bookQueryError = none) :
    ∃ m st1, calculateAggregatedCounts db params st = .ok (m, st1) := by
  simp only [calculateAggregatedCounts, herr]
  by_cases hc : (emptyFilter params &&
      (ensurePopulated db st).cachedAggregatedCounts.isSome) = true
  · rw [if_pos hc]
    exact ⟨_, _, rfl⟩
  · rw [if_neg hc]
    by_cases hef : emptyFilter params
    · rw [if_pos hef]
      exact ⟨_, _, rfl⟩
    · rw [if_neg hef]
      exact ⟨_, _, rfl⟩

/-- The output of `getAdvancedGenresHierarchy` in terms of its
aggregation call's result: the node map and both passes over the
freshly queried rows. -/
theorem getAdvancedGenresHierarchy_eq (db : Db) (st : ServiceState)
    (m : List (String × Nat)) (st1 : ServiceState)
    (hcalc : calculateAggregatedCounts db none st = .ok (m, st1)) :
    getAdvancedGenresHierarchy db st = .ok
      ({ nodes := db.advancedGenres.foldl
          (fun m2 g => jsMapSet m2 g.id
            { id := g.id, slug := g.slug,
              numberOfBooks := (jsMapGet m g.id).getD 0 }) []
         roots := (db.advancedGenres.foldl
           (linkStep (db.advancedGenres.foldl
             (fun m2 g => jsMapSet m2 g.id
               { id := g.id, slug := g.slug,
                 numberOfBooks := (jsMapGet m g.id).getD 0 }) []))
           ([], fun _ => [])).1
         childLists := (db.advancedGenres.foldl
           (linkStep (db.advancedGenres.foldl
             (fun m2 g => jsMapSet m2 g.id
               { id := g.id, slug := g.slug,
                 numberOfBooks := (jsMapGet m g.id).getD 0 }) []))
           ([], fun _ => [])).2 }, st1) := by
  have hcalc' : calculateAggregatedCounts db none (ensurePopulated db st) =
      .ok (m, st1) := by
    rw [calculateAggregatedCounts_ensure]
    exact hcalc
  simp only [getAdvancedGenresHierarchy, hcalc', bind, Except.bind, pure,
    Except.pure]

theorem rowIsRoot_not_child (rows : List Genre) (g : Genre)
    (h : rowIsRoot rows g = true) (q : String) :
    isChildRowOf rows q g = false := by
  rw [rowIsRoot] at h
  rw [isChildRowOf]
  rcases hp : g.parentGenre with _ | p
  · rfl
  · rw [hp] at h
    by_cases hqp : p = q
    · subst hqp
      rcases Bool.or_eq_true_iff.mp h with h1 | h1
      · rw [h1]
        simp
      · rw [Bool.not_eq_true'] at h1
        rw [h1]
        simp
    · have h1 : (some p == some q) = false := by
        rw [beq_eq_false_iff_ne]
        intro hq
        exact hqp (Option.some_inj.mp hq)
      rw [h1]
      rfl

theorem not_mem_filter_map_id (rows : List Genre)
    (hnd : (rows.map (·.id)).Nodup) (pred : Genre → Bool) (g : Genre)
    (hg : g ∈ rows) (h : pred g = false) :
    g.id ∉ (rows.filter pred).map (·.id) := by
  intro hmem
  rcases List.mem_map.mp hmem with ⟨x, hxf, hxid⟩
  rw [List.mem_filter] at hxf
  have hxg : x = g := nodup_id_inj hnd hxf.1 hg hxid
  rw [hxg, h] at hxf
  exact Bool.noConfusion hxf.2

/-- **C5**: in the forest returned by `getAdvancedGenresHierarchy`,
every row whose `parentGenre` is absent, empty, or refers to an id with
no row appears (exactly once) as a root and under no node's children,
and every other row appears exactly once, namely in its parent's
children array; the call succeeds (no error for a dangling parent). -/
theorem getAdvancedGenresHierarchy_root_child_placement
    (db : Db) (st : ServiceState)
    (hnd : (db.advancedGenres.map (·.id)).Nodup)
    (herr : db.bookQueryError = none) :
    ∃ f st2, getAdvancedGenresHierarchy db st = .ok (f, st2) ∧
      ∀ g ∈ db.advancedGenres,
        ((g.parentGenre = none ∨ g.parentGenre = some "" ∨
          (∀ p, g.parentGenre = some p →
            p ∉ db.advancedGenres.map (·.id))) →
          f.roots.count g.id = 1 ∧ ∀ q, g.id ∉ f.childLists q) ∧
        (∀ p, g.parentGenre = some p → p ≠ "" →
          p ∈ db.advancedGenres.map (·.id) →
          (f.childLists p).count g.id = 1 ∧ g.id ∉ f.roots ∧
          ∀ q, q ≠ p → g.id ∉ f.childLists q) := by
  obtain ⟨m, st1, hcalc⟩ := calculateAggregatedCounts_ok db none st herr
  have heq := getAdvancedGenresHierarchy_eq db st m st1 hcalc
  refine ⟨_, st1, heq, ?_⟩
  set rows := db.advancedGenres with hrows
  set nodes : List (String × TreeNode) := rows.foldl
    (fun m2 g => jsMapSet m2 g.id
      (⟨g.id, g.slug, (jsMapGet m g.id).getD 0⟩ : TreeNode)) [] with hnodes
  have hkeys : ∀ p, ((jsMapGet nodes p).isSome = true) ↔
      p ∈ rows.map (·.id) := by
    intro p
    rw [jsMapGet_isSome, hnodes, foldl_jsMapSet_keys]
    exact mem_objKeys rows p
  obtain ⟨hroots, hchild⟩ := hierarchyLinks_aux rows nodes hkeys rows
    ([], fun _ => [])
  intro g hg
  constructor
  · intro hcase
    have hr : rowIsRoot rows g = true := by
      rw [rowIsRoot]
      rcases hp : g.parentGenre with _ | p
      · rfl
      · show ((p == "") || !decide (p ∈ rows.map (·.id))) = true
        rcases hcase with hc | hc | hc
        · rw [hp] at hc
          cases hc
        · rw [hp] at hc
          rw [Option.some_inj.mp hc]
          simp
        · rw [decide_eq_false (hc p hp)]
          simp
    constructor
    · show List.count g.id ((rows.foldl (linkStep nodes) ([], fun _ => [])).1) = 1
      rw [hroots]
      simp only [List.nil_append]
      rw [count_filter_map_id rows hnd _ g hg, if_pos hr]
    · intro q
      show g.id ∉ (rows.foldl (linkStep nodes) ([], fun _ => [])).2 q
      rw [hchild q]
      simp only [List.nil_append]
      exact not_mem_filter_map_id rows hnd _ g hg
        (rowIsRoot_not_child rows g hr q)
  · intro p hp hpne hpm
    have hc : isChildRowOf rows p g = true := by
      rw [isChildRowOf, hp]
      have h2 : (p == "") = false := beq_eq_false_iff_ne.mpr hpne
      rw [h2, decide_eq_true hpm]
      simp
    have hr : rowIsRoot rows g = false := by
      rw [rowIsRoot, hp]
      show ((p == "") || !decide (p ∈ rows.map (·.id))) = false
      have h2 : (p == "") = false := beq_eq_false_iff_ne.mpr hpne
      rw [h2, decide_eq_true hpm]
      rfl
    refine ⟨?_, ?_, ?_⟩
    · show List.count g.id ((rows.foldl (linkStep nodes) ([], fun _ => [])).2 p) = 1
      rw [hchild p]
      simp only [List.nil_append]
      rw [count_filter_map_id rows hnd _ g hg, if_pos hc]
    · show g.id ∉ (rows.foldl (linkStep nodes) ([], fun _ => [])).1
      rw [hroots]
      simp only [List.nil_append]
      exact not_mem_filter_map_id rows hnd _ g hg hr
    · intro q hqp
      show g.id ∉ (rows.foldl (linkStep nodes) ([], fun _ => [])).2 q
      rw [hchild q]
      simp only [List.nil_append]
      apply not_mem_filter_map_id rows hnd _ g hg
      rw [isChildRowOf, hp]
      have h1 : (some p == some q) = false := by
        rw [beq_eq_false_iff_ne]
        intro hq
        exact hqp (Option.some_inj.mp hq).symm
      rw [h1]
      rfl

/-- Genre `X` whose parent pointer dangles (no row `NOPE`). -/
def wGX : Genre := ⟨"X", "x", some "NOPE", 0⟩

/-- Backing store with a root, a dangling-parent row, and a child. -/
def wDbDangling : Db := ⟨[wGA, wGX, wGB], [], [], none⟩

/-- Witness for C5 at a store with a dangling-parent row, starting
from an unpopulated state. -/
theorem getAdvancedGenresHierarchy_root_child_placement_witness :
    ∃ f st2,
      getAdvancedGenresHierarchy wDbDangling ⟨none, none, none⟩ =
        .ok (f, st2) ∧
      ∀ g ∈ wDbDangling.advancedGenres,
        ((g.parentGenre = none ∨ g.parentGenre = some "" ∨
          (∀ p, g.parentGenre = some p →
            p ∉ wDbDangling.advancedGenres.map (·.id))) →
          f.roots.count g.id = 1 ∧ ∀ q, g.id ∉ f.childLists q) ∧
        (∀ p, g.parentGenre = some p → p ≠ "" →
          p ∈ wDbDangling.advancedGenres.map (·.id) →
          (f.childLists p).count g.id = 1 ∧ g.id ∉ f.roots ∧
          ∀ q, q ≠ p → g.id ∉ f.childLists q) :=
  getAdvancedGenresHierarchy_root_child_placement wDbDangling
    ⟨none, none, none⟩ (by decide) rfl

/-- **C10**: the forest's node set comes from the fresh
`db.advancedGenre.findMany` rows (its keys are the rows' ids), while
each node's `numberOfBooks` comes from the snapshot-based no-filter
aggregation map; the returned state is the aggregation call's state. -/
theorem getAdvancedGenresHierarchy_sources
    (db : Db) (st : ServiceState) (m : List (String × Nat))
    (st1 : ServiceState) (f : Forest) (st2 : ServiceState)
    (hcalc : calculateAggregatedCounts db none st = .ok (m, st1))
    (hhier : getAdvancedGenresHierarchy db st = .ok (f, st2)) :
    f.nodes.map Prod.fst = objKeys db.advancedGenres ∧
    (∀ q ∈ f.nodes, ∃ g ∈ db.advancedGenres, q.1 = g.id ∧
      q.2 = { id := g.id, slug := g.slug,
              numberOfBooks := (jsMapGet m g.id).getD 0 }) ∧
    st2 = st1 := by
  rw [getAdvancedGenresHierarchy_eq db st m st1 hcalc] at hhier
  simp only [Except.ok.injEq, Prod.mk.injEq] at hhier
  obtain ⟨rfl, rfl⟩ := hhier
  refine ⟨?_, ?_, rfl⟩
  · exact foldl_jsMapSet_keys db.advancedGenres
      (fun g => (⟨g.id, g.slug, (jsMapGet m g.id).getD 0⟩ : TreeNode)) []
  · intro q hq
    exact foldl_jsMapSet_mem db.advancedGenres _ q hq

/-- The backing advanced-genre table holding only row `B` while the
snapshot (in `wStA`) holds only genre `A`. -/
def wGBRow : Genre := ⟨"B", "b", none, 7⟩

def wDbRows : Db := ⟨[wGBRow], [], [⟨"b1", "x", 0, [], ["A"]⟩], none⟩

/-- Witness for C10, at a state whose backing rows (`{B}`) differ from
the snapshot (`{A}`): the sourcing theorem applies, and concretely the
forest's node come from the rows while the aggregation map is keyed by
the snapshot (with `B`'s count falling back to 0). -/
theorem getAdvancedGenresHierarchy_sources_witness :
    ((wDbRows.advancedGenres.foldl
        (fun m2 g => jsMapSet m2 g.id
          { id := g.id, slug := g.slug,
            numberOfBooks :=
              (jsMapGet [("A", 1)] g.id).getD 0 }) [] : List (String × TreeNode)).map
        Prod.fst = objKeys wDbRows.advancedGenres ∧
      (∀ q ∈ (wDbRows.advancedGenres.foldl
          (fun m2 g => jsMapSet m2 g.id
            { id := g.id, slug := g.slug,
              numberOfBooks := (jsMapGet [("A", 1)] g.id).getD 0 }) [] :
            List (String × TreeNode)),
        ∃ g ∈ wDbRows.advancedGenres, q.1 = g.id ∧
          q.2 = { id := g.id, slug := g.slug,
                  numberOfBooks := (jsMapGet [("A", 1)] g.id).getD 0 }) ∧
      (⟨some [wGA], some [wGA], some [("A", 1)]⟩ : ServiceState) =
        ⟨some [wGA], some [wGA], some [("A", 1)]⟩) ∧
    (genreValues wStA).map (·.id) = ["A"] ∧
    objKeys wDbRows.advancedGenres = ["B"] ∧
    (jsMapGet [("A", 1)] "B").getD 0 = 0 := by
  refine ⟨?_, rfl, rfl, rfl⟩
  exact getAdvancedGenresHierarchy_sources wDbRows wStA [("A", 1)]
    ⟨some [wGA], some [wGA], some [("A", 1)]⟩
    { nodes := wDbRows.advancedGenres.foldl
        (fun m2 g => jsMapSet m2 g.id
          { id := g.id, slug := g.slug,
            numberOfBooks := (jsMapGet [("A", 1)] g.id).getD 0 }) []
      roots := (wDbRows.advancedGenres.foldl
        (linkStep (wDbRows.advancedGenres.foldl
          (fun m2 g => jsMapSet m2 g.id
            { id := g.id, slug := g.slug,
              numberOfBooks := (jsMapGet [("A", 1)] g.id).getD 0 }) []))
        ([], fun _ => [])).1
      childLists := (wDbRows.advancedGenres.foldl
        (linkStep (wDbRows.advancedGenres.foldl
          (fun m2 g => jsMapSet m2 g.id
            { id := g.id, slug := g.slug,
              numberOfBooks := (jsMapGet [("A", 1)] g.id).getD 0 }) []))
        ([], fun _ => [])).2 }
    ⟨some [wGA], some [wGA], some [("A", 1)]⟩ rfl
    (getAdvancedGenresHierarchy_eq wDbRows wStA [("A", 1)]
      ⟨some [wGA], some [wGA], some [("A", 1)]⟩ rfl)

/-- Invariant of the descendants memo: a nonempty entry is the
complete descendant set of its key (empty entries are placeholders the
source recomputes). -/
def MemoInv (genres : List Genre) (memo : String → Finset String) : Prop :=
  ∀ x, (memo x).Nonempty → ∀ d, d ∈ memo x ↔ Descendant genres x d

theorem collectDescendants_spec (genres : List Genre) (rank : String → Nat)
    (hrank : ∀ p c, childStep genres p c → rank c < rank p) (fuel : Nat) :
    ∀ gid memo, MemoInv genres memo → gid ∈ genres.map (·.id) →
      rank gid < fuel →
      (∀ d, d ∈ (collectDescendants (childrenMap genres) fuel gid memo).1 ↔
        Descendant genres gid d) ∧
      MemoInv genres (collectDescendants (childrenMap genres) fuel gid
        memo).2 ∧
      (∀ x, (collectDescendants (childrenMap genres) fuel gid memo).2 x =
          memo x ∨
        (∀ d, d ∈ (collectDescendants (childrenMap genres) fuel gid
          memo).2 x ↔ Descendant genres x d)) ∧
      (∀ d, d ∈ (collectDescendants (childrenMap genres) fuel gid memo).2
        gid ↔ Descendant genres gid d) := by
  induction fuel with
  | zero =>
    intro gid memo _ _ hlt
    exact absurd hlt (Nat.not_lt_zero _)
  | succ fuel ih =>
    intro gid memo hinv hid hlt
    by_cases hne : (memo gid).Nonempty
    · rw [collectDescendants, if_pos hne]
      exact ⟨hinv gid hne, hinv, fun x => Or.inl rfl, hinv gid hne⟩
    · rw [collectDescendants, if_neg hne]
      have Hfold : ∀ (l : List String), (∀ c ∈ l, c ∈ genres.map (·.id) ∧
          rank c < fuel) →
          ∀ accm : Finset String × (String → Finset String),
            MemoInv genres accm.2 →
            (∀ d, d ∈ (l.foldl (fun acc c =>
                let r := collectDescendants (childrenMap genres) fuel c acc.2
                (insert c acc.1 ∪ r.1, r.2)) accm).1 ↔
              d ∈ accm.1 ∨ ∃ c ∈ l, d = c ∨ Descendant genres c d) ∧
            MemoInv genres (l.foldl (fun acc c =>
              let r := collectDescendants (childrenMap genres) fuel c acc.2
              (insert c acc.1 ∪ r.1, r.2)) accm).2 ∧
            (∀ x, (l.foldl (fun acc c =>
                let r := collectDescendants (childrenMap genres) fuel c acc.2
                (insert c acc.1 ∪ r.1, r.2)) accm).2 x = accm.2 x ∨
              (∀ d, d ∈ (l.foldl (fun acc c =>
                let r := collectDescendants (childrenMap genres) fuel c acc.2
                (insert c acc.1 ∪ r.1, r.2)) accm).2 x ↔
                Descendant genres x d)) := by
        intro l
        induction l with
        | nil =>
          intro _ accm hacc
          exact ⟨fun d => by simp, hacc, fun x => Or.inl rfl⟩
        | cons c cs ihl =>
          intro hcl accm hacc
          obtain ⟨hc1, hc2⟩ := hcl c (List.mem_cons_self c cs)
          obtain ⟨ha1, ha2, ha3, ha4⟩ := ih c accm.2 hacc hc1 hc2
          simp only [List.foldl_cons]
          obtain ⟨hb1, hb2, hb3⟩ :=
            ihl (fun c' hc' => hcl c' (List.mem_cons_of_mem _ hc'))
              (insert c accm.1 ∪
                (collectDescendants (childrenMap genres) fuel c accm.2).1,
               (collectDescendants (childrenMap genres) fuel c accm.2).2) ha2
          refine ⟨?_, hb2, ?_⟩
          · intro d
            rw [hb1 d]
            simp only [Finset.mem_union, Finset.mem_insert, List.mem_cons]
            constructor
            · rintro (((heq | hd) | hd) | ⟨c', hc', hcase⟩)
              · exact Or.inr ⟨c, Or.inl rfl, Or.inl heq⟩
              · exact Or.inl hd
              · exact Or.inr ⟨c, Or.inl rfl, Or.inr ((ha1 d).mp hd)⟩
              · exact Or.inr ⟨c', Or.inr hc', hcase⟩
            · rintro (hd | ⟨c', rfl | hc', hcase⟩)
              · exact Or.inl (Or.inl (Or.inr hd))
              · rcases hcase with heq | hcase
                · exact Or.inl (Or.inl (Or.inl heq))
                · exact Or.inl (Or.inr ((ha1 d).mpr hcase))
              · exact Or.inr ⟨c', hc', hcase⟩
          · intro x
            rcases hb3 x with hb | hb
            · rw [hb]
              exact ha3 x
            · exact Or.inr hb
      have hkids : ∀ c ∈ childrenMap genres gid,
          c ∈ genres.map (·.id) ∧ rank c < fuel := by
        intro c hc
        refine ⟨childrenMap_mem_ids _ _ _ hc, ?_⟩
        have := hrank gid c ⟨hid, hc⟩
        omega
      obtain ⟨h1, h2, h3⟩ := Hfold (childrenMap genres gid) hkids (∅, memo)
        hinv
      simp only []
      have hD : ∀ d, d ∈ ((childrenMap genres gid).foldl (fun acc c =>
          let r := collectDescendants (childrenMap genres) fuel c acc.2
          (insert c acc.1 ∪ r.1, r.2)) (∅, memo)).1 ↔
          Descendant genres gid d := by
        intro d
        rw [h1 d]
        simp only [Finset.not_mem_empty, false_or]
        rw [descendant_iff_child hid]
        constructor
        · rintro ⟨c, hc, heq | hcase⟩
          · exact ⟨c, hc, Or.inl heq.symm⟩
          · exact ⟨c, hc, Or.inr hcase⟩
        · rintro ⟨c, hc, heq | hcase⟩
          · exact ⟨c, hc, Or.inl heq.symm⟩
          · exact ⟨c, hc, Or.inr hcase⟩
      refine ⟨hD, ?_, ?_, ?_⟩
      · intro x hx
        by_cases hxg : x = gid
        · subst hxg
          intro d
          simp only [if_pos rfl] at hx ⊢
          exact hD d
        · simp only [if_neg hxg] at hx ⊢
          rcases h3 x with hb | hb
          · rw [hb] at hx ⊢
            exact hinv x hx
          · exact hb
      · intro x
        by_cases hxg : x = gid
        · subst hxg
          refine Or.inr ?_
          intro d
          simp only [if_pos rfl]
          exact hD d
        · simp only [if_neg hxg]
          exact h3 x
      · intro d
        simpa using hD d

theorem buildDescendantMap_fold (genres : List Genre) (rank : String → Nat)
    (hrank : ∀ p c, childStep genres p c → rank c < rank p)
    (hbound : ∀ x, rank x < genres.length + 1) :
    ∀ (l : List Genre) (memo : String → Finset String),
      MemoInv genres memo → (∀ g ∈ l, g.id ∈ genres.map (·.id)) →
      MemoInv genres (l.foldl (fun mm g =>
        (collectDescendants (childrenMap genres) (genres.length + 1) g.id
          mm).2) memo) ∧
      (∀ x, (l.foldl (fun mm g =>
          (collectDescendants (childrenMap genres) (genres.length + 1) g.id
            mm).2) memo) x = memo x ∨
        (∀ d, d ∈ (l.foldl (fun mm g =>
          (collectDescendants (childrenMap genres) (genres.length + 1) g.id
            mm).2) memo) x ↔ Descendant genres x d)) ∧
      (∀ g ∈ l, ∀ d, d ∈ (l.foldl (fun mm g =>
        (collectDescendants (childrenMap genres) (genres.length + 1) g.id
          mm).2) memo) g.id ↔ Descendant genres g.id d) := by
  intro l
  induction l with
  | nil =>
    intro memo hinv _
    exact ⟨hinv, fun x => Or.inl rfl, by simp⟩
  | cons g rest ihl =>
    intro memo hinv hids
    obtain ⟨h1, h2, h3, h4⟩ := collectDescendants_spec genres rank hrank
      (genres.length + 1) g.id memo hinv
      (hids g (List.mem_cons_self g rest)) (hbound g.id)
    simp only [List.foldl_cons]
    obtain ⟨g1, g2, g3⟩ := ihl _ h2
      (fun g' hg' => hids g' (List.mem_cons_of_mem _ hg'))
    refine ⟨g1, ?_, ?_⟩
    · intro x
      rcases g2 x with hb | hb
      · rw [hb]
        exact h3 x
      · exact Or.inr hb
    · intro g' hg' d
      rcases List.mem_cons.mp hg' with rfl | hg''
      · rcases g2 g'.id with hb | hb
        · rw [hb]
          exact h4 d
        · exact hb d
      · exact g3 g' hg'' d

/-- `buildDescendantMap` computes, for every snapshot genre id,
exactly its set of direct and transitive descendants. -/
theorem buildDescendantMap_spec (genres : List Genre) (rank : String → Nat)
    (hrank : ∀ p c, childStep genres p c → rank c < rank p) :
    ∀ i ∈ genres.map (·.id), ∀ d,
      d ∈ buildDescendantMap genres i ↔ Descendant genres i d := by
  obtain ⟨rank', hrank', hbound⟩ := exists_bounded_rank genres rank hrank
  have hfold := buildDescendantMap_fold genres rank' hrank' hbound genres
    (fun _ => ∅) (fun x hx => absurd hx (by simp)) (fun g hg =>
      List.mem_map.mpr ⟨g, hg, rfl⟩)
  intro i hi d
  rcases List.mem_map.mp hi with ⟨g, hg, rfl⟩
  exact hfold.2.2 g hg d

/-- **C7**: `getGenreIdsWithDescendants` returns (as a set; the
JavaScript array is duplicate-free with insignificant order) exactly
the union, over the input ids, of each id itself with all of its
direct and transitive descendants in the current hierarchy; the empty
input yields the empty result. -/
theorem getGenreIdsWithDescendants_spec
    (db : Db) (st : ServiceState) (gs : List Genre) (rank : String → Nat)
    (input : List String)
    (hpop : st.genreIdToGenre = some gs)
    (hrank : ∀ p c, childStep gs p c → rank c < rank p) :
    (∀ x, x ∈ (getGenreIdsWithDescendants db input st).1 ↔
      ∃ i ∈ input, x = i ∨ Descendant gs i x) ∧
    (input = [] → (getGenreIdsWithDescendants db input st).1 = ∅) := by
  have hens := ensurePopulated_of_some db st gs hpop
  have hgv := genreValues_of_some st gs hpop
  by_cases hemp : input.isEmpty = true
  · have hnil : input = [] := List.isEmpty_iff.mp hemp
    subst hnil
    rw [getGenreIdsWithDescendants, hens]
    simp
  · have hfold : ∀ (l : List String) (acc : Finset String) (x : String),
        x ∈ l.foldl (fun acc gid => insert gid acc ∪
          (if gid ∈ gs.map (·.id) then buildDescendantMap gs gid else ∅))
          acc ↔
        x ∈ acc ∨ ∃ i ∈ l, x = i ∨
          (i ∈ gs.map (·.id) ∧ x ∈ buildDescendantMap gs i) := by
      intro l
      induction l with
      | nil => simp
      | cons i rest ihl =>
        intro acc x
        simp only [List.foldl_cons, ihl, Finset.mem_union, Finset.mem_insert,
          List.mem_cons]
        by_cases hi : i ∈ gs.map (·.id)
        · simp only [if_pos hi]
          constructor
          · rintro (((heq | hx) | hx) | ⟨i', hi', hcase⟩)
            · exact Or.inr ⟨i, Or.inl rfl, Or.inl heq⟩
            · exact Or.inl hx
            · exact Or.inr ⟨i, Or.inl rfl, Or.inr ⟨hi, hx⟩⟩
            · exact Or.inr ⟨i', Or.inr hi', hcase⟩
          · rintro (hx | ⟨i', rfl | hi', hcase⟩)
            · exact Or.inl (Or.inl (Or.inr hx))
            · rcases hcase with heq | ⟨_, hx⟩
              · exact Or.inl (Or.inl (Or.inl heq))
              · exact Or.inl (Or.inr hx)
            · exact Or.inr ⟨i', hi', hcase⟩
        · simp only [if_neg hi]
          constructor
          · rintro (((heq | hx) | hx) | ⟨i', hi', hcase⟩)
            · exact Or.inr ⟨i, Or.inl rfl, Or.inl heq⟩
            · exact Or.inl hx
            · cases hx
            · exact Or.inr ⟨i', Or.inr hi', hcase⟩
          · rintro (hx | ⟨i', rfl | hi', hcase⟩)
            · exact Or.inl (Or.inl (Or.inr hx))
            · rcases hcase with heq | ⟨hi', _⟩
              · exact Or.inl (Or.inl (Or.inl heq))
              · exact absurd hi' hi
            · exact Or.inr ⟨i', hi', hcase⟩
    constructor
    · intro x
      rw [getGenreIdsWithDescendants, hens, if_neg hemp]
      simp only [hgv]
      rw [hfold input ∅ x]
      simp only [Finset.not_mem_empty, false_or]
      constructor
      · rintro ⟨i, hi, heq | ⟨him, hx⟩⟩
        · exact ⟨i, hi, Or.inl heq⟩
        · exact ⟨i, hi, Or.inr ((buildDescendantMap_spec gs rank hrank i him
            x).mp hx)⟩
      · rintro ⟨i, hi, heq | hx⟩
        · exact ⟨i, hi, Or.inl heq⟩
        · have him : i ∈ gs.map (·.id) := by
            rcases transGen_cases_head hx with h' | ⟨c, h', _⟩
            · exact h'.1
            · exact h'.1
          exact ⟨i, hi, Or.inr ⟨him,
            (buildDescendantMap_spec gs rank hrank i him x).mpr hx⟩⟩
    · intro hnil
      subst hnil
      simp at hemp

/-- Witness for C7 at the three-level chain, with one input in the
snapshot (`B`, whose descendant is `C`) and one unknown (`Z`). -/
theorem getGenreIdsWithDescendants_spec_witness :
    (∀ x, x ∈ (getGenreIdsWithDescendants wDb1 ["B", "Z"] wSt1).1 ↔
      ∃ i ∈ ["B", "Z"], x = i ∨ Descendant wGenres1 i x) ∧
    (["B", "Z"] = ([] : List String) →
      (getGenreIdsWithDescendants wDb1 ["B", "Z"] wSt1).1 = ∅) :=
  getGenreIdsWithDescendants_spec wDb1 wSt1 wGenres1 wRank1 ["B", "Z"]
    rfl wRank1_decreasing

/-- Zero-count genre `D` (a root with no books). -/
def wGD : Genre := ⟨"D", "d", none, 0⟩

/-- A book directly tagged with `A` only. -/
def wBookA : Book := ⟨"b1", "x", 0, [], ["A"]⟩

/-- Backing store with genres `A` (one book) and `D` (no books). -/
def wDbZ : Db := ⟨[wGA, wGD], [], [wBookA], none⟩

/-- Populated two-genre state for the `{A, D}` store, no cache. -/
def wStZ : ServiceState := ⟨some [wGA, wGD], some [wGA, wGD], none⟩

/-- Counterexample to C4 as stated: through the `GET /genre` route with
no query filters at all, the zero-count genre `D` — present in the
snapshot — is excluded from the returned listing, while the claim (and
the spec's unfiltered-listing contract) requires it to appear with
`numberOfBooks` 0. -/
theorem routeGetGenres_unfiltered_drops_zero_cex :
    routeGetGenres wDbZ ⟨none, none, none, none⟩ wStZ =
      .ok ([{ id := "A", slug := "a", numberOfBooks := 1 }],
        ⟨some [wGA, wGD], some [wGA, wGD], some [("A", 1), ("D", 0)]⟩) ∧
    "D" ∈ (genreValues wStZ).map (·.id) ∧
    ∀ d ∈ [({ id := "A", slug := "a", numberOfBooks := 1 } : GenreDto)],
      d.id ≠ "D" := by
  refine ⟨?_, by decide, by decide⟩
  have hcalc : calculateAggregatedCounts wDbZ
      (some ⟨none, none, none, none⟩) wStZ =
      .ok ([("A", 1), ("D", 0)],
        ⟨some [wGA, wGD], some [wGA, wGD], some [("A", 1), ("D", 0)]⟩) := rfl
  have heq := aggregateChildGenresToParents_eq wDbZ
    (some ⟨none, none, none, none⟩) wStZ [("A", 1), ("D", 0)]
    ⟨some [wGA, wGD], some [wGA, wGD], some [("A", 1), ("D", 0)]⟩ rfl hcalc
  have hfil : (((genreValues
      (⟨some [wGA, wGD], some [wGA, wGD],
        some [("A", 1), ("D", 0)]⟩ : ServiceState)).map fun g =>
        { g with numberOfBooks :=
          (jsMapGet [("A", 1), ("D", 0)] g.id).getD 0 }).filter
      (fun g => (some (⟨none, none, none, none⟩ : GenreFilter) :
          Option GenreFilter).isNone ||
        decide (0 < (jsMapGet [("A", 1), ("D", 0)] g.id).getD 0))) =
      [{ wGA with numberOfBooks := 1 }] := rfl
  rw [hfil, List.mergeSort_singleton] at heq
  exact heq

/-- Witness for the amended C4 at the two-genre store `{A, D}`: the
unfiltered service listing keeps `D` with count 0, a filtered call
drops it, and the route equality is definitional. -/
theorem listAll_zero_count_filtering_witness :
    (∀ m st1,
      calculateAggregatedCounts wDbZ none wStZ = .ok (m, st1) →
      ∃ dtos st2,
        aggregateChildGenresToParents wDbZ none wStZ = .ok (dtos, st2) ∧
        dtos.Perm ([wGA, wGD].map (fun g =>
          makeGenreDto { g with numberOfBooks := (jsMapGet m g.id).getD 0 }))) ∧
    (∀ f m st1 dtos st2,
      calculateAggregatedCounts wDbZ (some f) wStZ = .ok (m, st1) →
      aggregateChildGenresToParents wDbZ (some f) wStZ = .ok (dtos, st2) →
      ∀ g ∈ [wGA, wGD], (jsMapGet m g.id).getD 0 = 0 →
        ∀ d ∈ dtos, d.id ≠ g.id) ∧
    (∀ q st', routeGetGenres wDbZ q st' =
      getAllAdvancedGenres wDbZ
        (some ⟨q.authorId, q.bookIds, q.yearRange, q.regionId⟩) st') :=
  listAll_zero_count_filtering wDbZ wStZ [wGA, wGD] rfl (by decide)

/-- Witness for C9 at an unpopulated state (lazy populate then
compute): the returned map `{A: 1, D: 0}` is keyed exactly by the
snapshot ids and the new state satisfies the cache invariant. -/
theorem calculateAggregatedCounts_keyset_witness :
    ([("A", 1), ("D", 0)] : List (String × Nat)).map Prod.fst =
      objKeys (genreValues (ensurePopulated wDbZ ⟨none, none, none⟩)) ∧
    CacheInv ⟨some [wGA, wGD], some [wGA, wGD], some [("A", 1), ("D", 0)]⟩ :=
  calculateAggregatedCounts_keyset wDbZ none ⟨none, none, none⟩
    (fun m hm => by cases hm) [("A", 1), ("D", 0)]
    ⟨some [wGA, wGD], some [wGA, wGD], some [("A", 1), ("D", 0)]⟩ (by rfl)

/-- Witness for C1 at the three-level chain with one book on the
leaf. -/
theorem calculateAggregatedCounts_union_spec_witness :
    ∃ m st2, calculateAggregatedCounts wDb1 none wSt1 = .ok (m, st2) ∧
      (∀ g ∈ wGenres1, ∃ S : Finset String,
        (∀ b, b ∈ S ↔
          b ∈ genreToBooks (wDb1.books.filter (matchesFilter none)) g.id ∨
          ∃ d, Descendant wGenres1 g.id d ∧
            b ∈ genreToBooks (wDb1.books.filter (matchesFilter none)) d) ∧
        jsMapGet m g.id = some S.card) ∧
      (∀ g d, g ∈ wGenres1.map (·.id) → Descendant wGenres1 g d →
        ∃ cg cd, jsMapGet m g = some cg ∧ jsMapGet m d = some cd ∧
          cd ≤ cg) :=
  calculateAggregatedCounts_union_spec wDb1 none wSt1 wGenres1 wRank1
    rfl rfl rfl wRank1_decreasing

end AdvancedGenre
